import Mathlib

/-!
Verification development for the Codex request translators:
the Chat-Completions converter (`codex_openai_request.go`) and the
Responses normalizer (`codex_openai-responses_request.go`).

Go strings are modelled by Lean `String` at character granularity:
`len`, slicing `s[:n]` / `s[i:]`, `+` and `strings.HasPrefix` become
`strLen`, `strTake` / `strDrop`, `strCat` and `strStartsWith`, all of
which are thin wrappers over the underlying character list so that the
usual list lemmas apply.
-/

/-- Go `len(s)`. -/
def strLen (s : String) : Nat := s.data.length

/-- Go `s[:n]`. -/
def strTake (s : String) (n : Nat) : String := String.mk (s.data.take n)

/-- Go `s[n:]`. -/
def strDrop (s : String) (n : Nat) : String := String.mk (s.data.drop n)

/-- Go string concatenation `a + b`. -/
def strCat (a b : String) : String := String.mk (a.data ++ b.data)

/-- Go `strings.HasPrefix s p`. -/
def strStartsWith (s p : String) : Bool := p.data.isPrefixOf s.data

/-- The character for a decimal digit `d < 10`. -/
def digitChar (d : Nat) : Char := Char.ofNat (48 + d)

/-- Fuelled decimal rendering; `fuel` bounds the recursion depth. -/
def itoaAux : Nat → Nat → List Char
  | 0, _ => []
  | fuel + 1, n =>
    if n < 10 then [digitChar n]
    else itoaAux fuel (n / 10) ++ [digitChar (n % 10)]

/-- Go `strconv.Itoa` for a natural number (always non-negative here). -/
def itoa (n : Nat) : String := String.mk (itoaAux (n + 1) n)

/-- Positions at which the two-character pattern `__` occurs in a character list. -/
def dunderIdxs (cs : List Char) : List Nat :=
  (List.range cs.length).filter (fun i => decide ((cs.drop i).take 2 = ['_', '_']))

/-- Maximum of a list of naturals, `none` on the empty list. -/
def natListMax : List Nat → Option Nat
  | [] => none
  | x :: xs =>
    match natListMax xs with
    | none => some x
    | some m => some (if x ≤ m then m else x)

/-- Go `strings.LastIndex name "__"`: index of the last occurrence, `-1` if none. -/
def lastDunder (s : String) : Int :=
  match natListMax (dunderIdxs s.data) with
  | some i => (i : Int)
  | none => -1

/-! SHA-256 over byte lists, used by the call-identifier shortener
(`crypto/sha256` + `encoding/hex` in the source). -/

/-- `2 ^ 32`, the modulus for 32-bit words. -/
def w32mod : Nat := 4294967296

/-- Right rotation of a 32-bit word. -/
def rotr32 (n x : Nat) : Nat := (x / 2 ^ n + x % 2 ^ n * 2 ^ (32 - n)) % w32mod

/-- Bitwise complement of a 32-bit word. -/
def not32 (x : Nat) : Nat := x ^^^ (w32mod - 1)

def sha256Ch (x y z : Nat) : Nat := (x &&& y) ^^^ (not32 x &&& z)

def sha256Maj (x y z : Nat) : Nat := (x &&& y) ^^^ (x &&& z) ^^^ (y &&& z)

def bigSigma0 (x : Nat) : Nat := rotr32 2 x ^^^ rotr32 13 x ^^^ rotr32 22 x

def bigSigma1 (x : Nat) : Nat := rotr32 6 x ^^^ rotr32 11 x ^^^ rotr32 25 x

def smallSigma0 (x : Nat) : Nat := rotr32 7 x ^^^ rotr32 18 x ^^^ x / 2 ^ 3

def smallSigma1 (x : Nat) : Nat := rotr32 17 x ^^^ rotr32 19 x ^^^ x / 2 ^ 10

/-- SHA-256 round constants (FIPS 180-4), written in decimal. -/
def sha256K : List Nat :=
  [1116352408, 1899447441, 3049323471, 3921009573, 961987163, 1508970993,
   2453635748, 2870763221, 3624381080, 310598401, 607225278, 1426881987,
   1925078388, 2162078206, 2614888103, 3248222580, 3835390401, 4022224774,
   264347078, 604807628, 770255983, 1249150122, 1555081692, 1996064986,
   2554220882, 2821834349, 2952996808, 3210313671, 3336571891, 3584528711,
   113926993, 338241895, 666307205, 773529912, 1294757372, 1396182291,
   1695183700, 1986661051, 2177026350, 2456956037, 2730485921, 2820302411,
   3259730800, 3345764771, 3516065817, 3600352804, 4094571909, 275423344,
   430227734, 506948616, 659060556, 883997877, 958139571, 1322822218,
   1537002063, 1747873779, 1955562222, 2024104815, 2227730452, 2361852424,
   2428436474, 2756734187, 3204031479, 3329325298]

/-- SHA-256 initial hash state (FIPS 180-4), written in decimal. -/
def sha256H0 : List Nat :=
  [1779033703, 3144134277, 1013904242, 2773480762, 1359893119, 2600822924,
   528734635, 1541459225]

/-- Big-endian 8-byte encoding of a 64-bit length. -/
def lenBytes64 (n : Nat) : List Nat :=
  [n / 2 ^ 56 % 256, n / 2 ^ 48 % 256, n / 2 ^ 40 % 256, n / 2 ^ 32 % 256,
   n / 2 ^ 24 % 256, n / 2 ^ 16 % 256, n / 2 ^ 8 % 256, n % 256]

/-- SHA-256 message padding. -/
def padMessage (ms : List Nat) : List Nat :=
  let L := ms.length
  let z := (120 - (L + 1) % 64) % 64
  ms ++ [128] ++ List.replicate z 0 ++ lenBytes64 (L * 8)

/-- Group bytes into big-endian 32-bit words. -/
def bytesToWords : List Nat → List Nat
  | b0 :: b1 :: b2 :: b3 :: rest =>
    (b0 * 2 ^ 24 + b1 * 2 ^ 16 + b2 * 2 ^ 8 + b3) :: bytesToWords rest
  | _ => []

/-- Split a byte list into 64-byte chunks (fuelled). -/
def chunks64 : Nat → List Nat → List (List Nat)
  | 0, _ => []
  | _ + 1, [] => []
  | fuel + 1, l => l.take 64 :: chunks64 fuel (l.drop 64)

/-- Append one word of the SHA-256 message schedule. -/
def schedStep (ws : List Nat) : List Nat :=
  let n := ws.length
  ws ++ [(smallSigma1 (ws.getD (n - 2) 0) + ws.getD (n - 7) 0 +
          smallSigma0 (ws.getD (n - 15) 0) + ws.getD (n - 16) 0) % w32mod]

/-- Extend the 16 chunk words by `k` scheduled words. -/
def schedule (ws : List Nat) : Nat → List Nat
  | 0 => ws
  | k + 1 => schedStep (schedule ws k)

/-- One SHA-256 compression round on the 8-word working state. -/
def compressStep (k w : Nat) : List Nat → List Nat
  | [a, b, c, d, e, f, g, h] =>
    let t1 := (h + bigSigma1 e + sha256Ch e f g + k + w) % w32mod
    let t2 := (bigSigma0 a + sha256Maj a b c) % w32mod
    [(t1 + t2) % w32mod, a, b, c, (d + t1) % w32mod, e, f, g]
  | st => st

/-- Compress one 64-byte chunk into the hash state. -/
def compressChunk (h : List Nat) (chunk : List Nat) : List Nat :=
  let ws := schedule (bytesToWords chunk) 48
  let fin := (List.zip sha256K ws).foldl (fun st kw => compressStep kw.1 kw.2 st) h
  List.zipWith (fun x y => (x + y) % w32mod) h fin

/-- Big-endian byte expansion of a 32-bit word. -/
def word32BytesBE (x : Nat) : List Nat :=
  [x / 2 ^ 24 % 256, x / 2 ^ 16 % 256, x / 2 ^ 8 % 256, x % 256]

/-- SHA-256 digest (32 bytes) of a byte list. -/
def sha256Bytes (msg : List Nat) : List Nat :=
  let padded := padMessage msg
  (((chunks64 (padded.length + 1) padded).foldl compressChunk sha256H0).map word32BytesBE).flatten

/-- UTF-8 bytes of a string, as naturals. -/
def strBytes (s : String) : List Nat := s.toUTF8.toList.map (fun b => b.toNat)

/-- One lower-case hex digit. -/
def hexDigit (d : Nat) : Char :=
  if d < 10 then Char.ofNat (48 + d) else Char.ofNat (87 + d)

/-- Go `hex.EncodeToString(sha256.Sum256([]byte(s))[:])`. -/
def sha256Hex (s : String) : String :=
  String.mk (((sha256Bytes (strBytes s)).map (fun b => [hexDigit (b / 16), hexDigit (b % 16)])).flatten)

/-- `shortenCallID` from `codex_openai_request.go` (the Responses normalizer's
`normalizeCallID` inlines the same hash-truncate-and-prepend computation). -/
def shortenCallID (id : String) : String :=
  if strLen id ≤ 64 then id
  else
    let hash := sha256Hex id
    let available := 64 - strLen "call_"
    let hash2 := if available < strLen hash then strTake hash available else hash
    strCat "call_" hash2

/-- First-match association-list lookup (gjson key lookup / Go map read). -/
def lookupKey {β : Type} (k : String) : List (String × β) → Option β
  | [] => none
  | (k0, v) :: rest => if k0 = k then some v else lookupKey k rest

/-- Replace the first binding of `k` (or append one): sjson key set / Go map write. -/
def setKey {β : Type} (k : String) (v : β) : List (String × β) → List (String × β)
  | [] => [(k, v)]
  | (k0, v0) :: rest => if k0 = k then (k, v) :: rest else (k0, v0) :: setKey k v rest

/-- Remove the first binding of `k`: sjson key delete. -/
def delKey {β : Type} (k : String) : List (String × β) → List (String × β)
  | [] => []
  | (k0, v0) :: rest => if k0 = k then rest else (k0, v0) :: delKey k rest

/-- The shared per-call cache shape for shortened call identifiers. -/
abbrev CallCache := List (String × String)

/-- The call-identifier normalizer with its per-call cache: the closure
`normalizeCallID` in `ConvertOpenAIRequestToCodex` and the function
`normalizeCallID` in the Responses normalizer (cache always non-nil there). -/
def normCallID (id : String) (cache : CallCache) : String × CallCache :=
  if id = "" ∨ strLen id ≤ 64 then (id, cache)
  else
    match lookupKey id cache with
    | some short => (short, cache)
    | none => (shortenCallID id, setKey id (shortenCallID id) cache)

/-- A cache is coherent when every entry records the hash-shortened form of its key. -/
def cacheOK (cache : CallCache) : Prop :=
  ∀ p ∈ cache, p.2 = shortenCallID p.1

/-- `shortenNameIfNeeded` from `codex_openai_request.go`. -/
def shortenNameIfNeeded (name : String) : String :=
  if strLen name ≤ 64 then name
  else
    if strStartsWith name "mcp__" then
      let idx := lastDunder name
      if 0 < idx then
        let candidate := strCat "mcp__" (strDrop name (idx.toNat + 2))
        if 64 < strLen candidate then strTake candidate 64 else candidate
      else strTake name 64
    else strTake name 64

/-- `baseCandidate` inside `buildShortNameMap` (same rule as `shortenNameIfNeeded`). -/
def baseCandidate (n : String) : String :=
  if strLen n ≤ 64 then n
  else
    if strStartsWith n "mcp__" then
      let idx := lastDunder n
      if 0 < idx then
        let cand := strCat "mcp__" (strDrop n (idx.toNat + 2))
        if 64 < strLen cand then strTake cand 64 else cand
      else strTake n 64
    else strTake n 64

/-- The candidate tried by `makeUnique` at counter `i`: the base truncated to
`64 - len("_" + itoa i)` (clamped at zero) with the numeric suffix appended. -/
def candAt (base : String) (i : Nat) : String :=
  let sfx := strCat "_" (itoa i)
  let allowed := 64 - strLen sfx
  let tmp := if allowed < strLen base then strTake base allowed else base
  strCat tmp sfx

/-- The suffix-search loop of `makeUnique`, made total with explicit fuel;
with fuel `used.length + 1` the fuel-exhausted fallback is unreachable. -/
def searchFree (used : List String) (base : String) : Nat → Nat → String
  | 0, i => candAt base i
  | fuel + 1, i =>
    let tmp := candAt base i
    if tmp ∈ used then searchFree used base fuel (i + 1) else tmp

/-- `makeUnique` inside `buildShortNameMap`. -/
def makeUnique (used : List String) (cand : String) : String :=
  if cand ∈ used then searchFree used cand (used.length + 1) 1 else cand

/-- One iteration of the `buildShortNameMap` loop. -/
def bsnStep (p : List String × List (String × String)) (n : String) :
    List String × List (String × String) :=
  let cand := baseCandidate n
  let uniq := makeUnique p.1 cand
  (p.1 ++ [uniq], setKey n uniq p.2)

/-- `buildShortNameMap` from `codex_openai_request.go`: the `used` set is the
list of already assigned aliases, the map is an association list. -/
def buildShortNameMap (names : List String) : List (String × String) :=
  (names.foldl bsnStep ([], [])).2

/-- The name-resolution snippet repeated at every use site: prefer the
pre-pass map, else shorten independently. -/
def mapName (nameMap : List (String × String)) (name : String) : String :=
  match lookupKey name nameMap with
  | some short => short
  | none => shortenNameIfNeeded name

/-! The JSON document model. gjson/sjson raw documents become a tree; objects
are ordered association lists; key access is first-match, matching gjson
lookup and sjson replace/delete on flat keys. -/

inductive Json where
  | null : Json
  | bool (b : Bool) : Json
  | num (n : Int) : Json
  | str (s : String) : Json
  | arr (elems : List Json) : Json
  | obj (fields : List (String × Json)) : Json

/-- A request document: an ordered JSON object, per the data model. -/
abbrev Doc := List (String × Json)

/-- Serialization of a document, modelling gjson's `Raw` text for
composite values (only its existence matters to the claims). -/
def escChar (c : Char) : List Char :=
  if c = '"' then ['\\', '"']
  else if c = '\\' then ['\\', '\\']
  else if c = '\n' then ['\\', 'n']
  else if c = '\t' then ['\\', 't']
  else if c = '\r' then ['\\', 'r']
  else [c]

def renderStr (s : String) : String :=
  String.mk ('"' :: (s.data.map escChar).flatten ++ ['"'])

mutual

def Json.render : Json → String
  | .null => "null"
  | .bool true => "true"
  | .bool false => "false"
  | .num n => toString n
  | .str s => renderStr s
  | .arr es => strCat "[" (strCat (renderElems es) "]")
  | .obj fs => strCat "\x7b" (strCat (renderFields fs) "\x7d")

def renderElems : List Json → String
  | [] => ""
  | [j] => Json.render j
  | j :: rest => strCat (Json.render j) (strCat "," (renderElems rest))

def renderFields : List (String × Json) → String
  | [] => ""
  | [(k, v)] => strCat (renderStr k) (strCat ":" (Json.render v))
  | (k, v) :: rest =>
    strCat (renderStr k) (strCat ":" (strCat (Json.render v) (strCat "," (renderFields rest))))

end

/-- gjson key lookup: only objects have keys. -/
def Json.get : Json → String → Option Json
  | .obj fields, k => lookupKey k fields
  | _, _ => none

/-- gjson `Result.IsObject()`. -/
def Json.isObj : Json → Bool
  | .obj _ => true
  | _ => false

/-- gjson `Result.String()`: strings verbatim, booleans and numbers as text,
null and missing as empty, composite values as their raw text. -/
def goString : Json → String
  | .null => ""
  | .bool true => "true"
  | .bool false => "false"
  | .num n => toString n
  | .str s => s
  | .arr es => Json.render (.arr es)
  | .obj fs => Json.render (.obj fs)

/-- gjson `j.Get(k).String()` (missing field reads as `""`). -/
def getStr (j : Json) (k : String) : String :=
  match j.get k with
  | some v => goString v
  | none => ""

/-- gjson `j.Get(k1 + "." + k2).String()`. -/
def getStr2 (j : Json) (k1 k2 : String) : String :=
  match j.get k1 with
  | some c => getStr c k2
  | none => ""

/-- Fresh nested objects created by an sjson set along a missing path. -/
def newNested : List String → Json → Json
  | [], v => v
  | k :: rest, v => .obj [(k, newNested rest v)]

/-- sjson set along a dotted path, creating or replacing intermediate objects. -/
def setPath : Json → List String → Json → Json
  | _, [], v => v
  | .obj fs, k :: rest, v =>
    (match lookupKey k fs with
     | some child => .obj (setKey k (setPath child rest v) fs)
     | none => .obj (setKey k (newNested rest v) fs))
  | _, k :: rest, v => .obj [(k, newNested rest v)]

/-- sjson set of `k.rest...` on a top-level document. -/
def docSetPath (o : Doc) (k : String) (rest : List String) (v : Json) : Doc :=
  match rest with
  | [] => setKey k v o
  | r :: rs =>
    match lookupKey k o with
    | some child => setKey k (setPath child (r :: rs) v) o
    | none => setKey k (newNested (r :: rs) v) o

/-- gjson get along a dotted path below a value. -/
def getPath (j : Json) : List String → Option Json
  | [] => some j
  | k :: rest =>
    match j.get k with
    | some c => getPath c rest
    | none => none

/-- gjson get of `k.rest...` on a top-level document. -/
def docGetPath (o : Doc) (k : String) (rest : List String) : Option Json :=
  match lookupKey k o with
  | some c => getPath c rest
  | none => none

/-! The Chat-Completions converter, `ConvertOpenAIRequestToCodex`,
as the composition of its phases in source order. -/

/-- Content-part type for text: `output_text` for assistant text, else `input_text`. -/
def textPartType (role : String) : String :=
  if role = "assistant" then "output_text" else "input_text"

/-- The content-array loop of the converter. -/
def contentPartsOfArray (role : String) (items : List Json) : List Json :=
  items.flatMap (fun it =>
    let t := getStr it "type"
    if t = "text" then
      [Json.obj [("type", Json.str (textPartType role)), ("text", Json.str (getStr it "text"))]]
    else if t = "image_url" then
      (if role = "user" then
        [Json.obj ([("type", Json.str "input_image")] ++
          (match (it.get "image_url").bind (fun u => u.get "url") with
           | some u => [("image_url", Json.str (goString u))]
           | none => []))]
      else [])
    else [])

/-- Content parts of one message: a single non-empty string becomes one text
part, an array is mapped part by part, anything else contributes nothing. -/
def contentParts (role : String) (m : Json) : List Json :=
  match m.get "content" with
  | some (.str s) =>
    if s ≠ "" then [Json.obj [("type", Json.str (textPartType role)), ("text", Json.str s)]]
    else []
  | some (.arr items) => contentPartsOfArray role items
  | _ => []

/-- The `message` item emitted for every non-`tool` role. -/
def messageItem (role : String) (m : Json) : Json :=
  Json.obj [("type", Json.str "message"),
            ("role", Json.str (if role = "system" then "developer" else role)),
            ("content", Json.arr (contentParts role m))]

/-- One iteration of the `tool_calls` loop of an assistant message. -/
def tcStep (nameMap : List (String × String)) (p : List Json × CallCache)
    (tc : Json) : List Json × CallCache :=
  if getStr tc "type" = "function" then
    let r := normCallID (getStr tc "id") p.2
    (p.1 ++ [Json.obj [("type", Json.str "function_call"),
                       ("call_id", Json.str r.1),
                       ("name", Json.str (mapName nameMap (getStr2 tc "function" "name"))),
                       ("arguments", Json.str (getStr2 tc "function" "arguments"))]], r.2)
  else p

/-- The `tool_calls` loop of an assistant message, threading the call-id cache. -/
def toolCallItems (nameMap : List (String × String)) (tcs : List Json)
    (cache : CallCache) : List Json × CallCache :=
  tcs.foldl (tcStep nameMap) ([], cache)

/-- One iteration of the messages loop: the items appended to `input` for a
single message, together with the updated call-id cache. -/
def convertMessage (nameMap : List (String × String)) (cache : CallCache)
    (m : Json) : List Json × CallCache :=
  let role := getStr m "role"
  if role = "tool" then
    let r := normCallID (getStr m "tool_call_id") cache
    ([Json.obj [("type", Json.str "function_call_output"),
                ("call_id", Json.str r.1),
                ("output", Json.str (getStr m "content"))]], r.2)
  else
    let msg := messageItem role m
    if role = "assistant" then
      match m.get "tool_calls" with
      | some (.arr tcs) =>
        let r := toolCallItems nameMap tcs cache
        (msg :: r.1, r.2)
      | _ => ([msg], cache)
    else ([msg], cache)

/-- One iteration of the messages loop, appending to the accumulated `input`. -/
def cmStep (nameMap : List (String × String)) (p : List Json × CallCache)
    (m : Json) : List Json × CallCache :=
  let r := convertMessage nameMap p.2 m
  (p.1 ++ r.1, r.2)

/-- The whole messages loop. -/
def convertMessages (nameMap : List (String × String)) (ms : List Json)
    (cache : CallCache) : List Json × CallCache :=
  ms.foldl (cmStep nameMap) ([], cache)

/-- The `tools` value of the request as an array (empty when absent or not an array). -/
def toolsArr (req : Doc) : List Json :=
  match lookupKey "tools" req with
  | some (.arr ts) => ts
  | _ => []

/-- The tool-name collection of the pre-pass: names of `function`-type tools. -/
def fnNames (tools : List Json) : List String :=
  tools.flatMap (fun t =>
    if getStr t "type" = "function" then
      match t.get "function" with
      | some fn =>
        (match fn.get "name" with
         | some v => [goString v]
         | none => [])
      | none => []
    else [])

/-- The pre-pass name map built once per conversion call. -/
def reqNameMap (req : Doc) : List (String × String) :=
  buildShortNameMap (fnNames (toolsArr req))

/-- The `messages` value of the request as an array. -/
def msgsArr (req : Doc) : List Json :=
  match lookupKey "messages" req with
  | some (.arr ms) => ms
  | _ => []

/-- Fixed scaffolding of the output: instructions, stream, reasoning defaults,
parallel tool calls, include list and model, in source order. -/
def ccBase (modelName : String) (req : Doc) (stream : Bool) : Doc :=
  let out : Doc := [("instructions", Json.str "")]
  let out := setKey "stream" (Json.bool stream) out
  let out :=
    match lookupKey "reasoning_effort" req with
    | some v => docSetPath out "reasoning" ["effort"] v
    | none => docSetPath out "reasoning" ["effort"] (Json.str "medium")
  let out := setKey "parallel_tool_calls" (Json.bool true) out
  let out := docSetPath out "reasoning" ["summary"] (Json.str "auto")
  let out := setKey "include" (Json.arr [Json.str "reasoning.encrypted_content"]) out
  setKey "model" (Json.str modelName) out

/-- The messages phase: `input` is set to `[]` and the converted items appended. -/
def ccInput (nameMap : List (String × String)) (req : Doc) (out : Doc) : Doc :=
  setKey "input" (Json.arr (convertMessages nameMap (msgsArr req) []).1) out

/-- The `response_format` / `text` phase. -/
def ccText (req : Doc) (out : Doc) : Doc :=
  match lookupKey "response_format" req with
  | some rf =>
    let out :=
      match lookupKey "text" out with
      | none => setKey "text" (Json.obj []) out
      | some _ => out
    let rft := getStr rf "type"
    let out :=
      if rft = "text" then docSetPath out "text" ["format", "type"] (Json.str "text")
      else if rft = "json_schema" then
        match rf.get "json_schema" with
        | some js =>
          let out := docSetPath out "text" ["format", "type"] (Json.str "json_schema")
          let out :=
            match js.get "name" with
            | some v => docSetPath out "text" ["format", "name"] v
            | none => out
          let out :=
            match js.get "strict" with
            | some v => docSetPath out "text" ["format", "strict"] v
            | none => out
          match js.get "schema" with
          | some v => docSetPath out "text" ["format", "schema"] v
          | none => out
        | none => out
      else out
    match lookupKey "text" req with
    | some tv =>
      (match tv.get "verbosity" with
       | some v => docSetPath out "text" ["verbosity"] v
       | none => out)
    | none => out
  | none =>
    match lookupKey "text" req with
    | some tv =>
      (match tv.get "verbosity" with
       | some v =>
         let out :=
           match lookupKey "text" out with
           | none => setKey "text" (Json.obj []) out
           | some _ => out
         docSetPath out "text" ["verbosity"] v
       | none => out)
    | none => out

/-- One entry of the output `tools` array: pass built-in tools through raw,
flatten `function` tools, drop everything else. -/
def convertTool (nameMap : List (String × String)) (t : Json) : Option Json :=
  let ty := getStr t "type"
  if ty ≠ "" ∧ ty ≠ "function" ∧ t.isObj = true then some t
  else if ty = "function" then
    some (Json.obj ([("type", Json.str "function")] ++
      (match t.get "function" with
       | some fn =>
         (match fn.get "name" with
          | some v => [("name", Json.str (mapName nameMap (goString v)))]
          | none => []) ++
         (match fn.get "description" with
          | some v => [("description", v)]
          | none => []) ++
         (match fn.get "parameters" with
          | some v => [("parameters", v)]
          | none => []) ++
         (match fn.get "strict" with
          | some v => [("strict", v)]
          | none => [])
       | none => [])))
  else none

/-- The tools phase: only runs on a non-empty `tools` array. -/
def ccTools (nameMap : List (String × String)) (req : Doc) (out : Doc) : Doc :=
  match lookupKey "tools" req with
  | some (.arr ts) =>
    if ts.isEmpty then out
    else setKey "tools" (Json.arr (ts.filterMap (convertTool nameMap))) out
  | _ => out

/-- The `tool_choice` phase. -/
def ccToolChoice (nameMap : List (String × String)) (req : Doc) (out : Doc) : Doc :=
  match lookupKey "tool_choice" req with
  | some (.str s) => setKey "tool_choice" (Json.str s) out
  | some (Json.obj fs) =>
    let tc := Json.obj fs
    let tcType := getStr tc "type"
    if tcType = "function" then
      let name0 := getStr2 tc "function" "name"
      let name := if name0 ≠ "" then mapName nameMap name0 else name0
      setKey "tool_choice"
        (Json.obj ([("type", Json.str "function")] ++
          (if name ≠ "" then [("name", Json.str name)] else []))) out
    else if tcType ≠ "" then setKey "tool_choice" tc out
    else out
  | some _ => out
  | none => out

/-- `ConvertOpenAIRequestToCodex` from `codex_openai_request.go`. -/
def ConvertOpenAIRequestToCodex (modelName : String) (req : Doc) (stream : Bool) : Doc :=
  let nameMap := reqNameMap req
  let out := ccBase modelName req stream
  let out := ccInput nameMap req out
  let out := ccText req out
  let out := ccTools nameMap req out
  let out := ccToolChoice nameMap req out
  setKey "store" (Json.bool false) out

/-! The Responses normalizer, `ConvertOpenAIResponsesRequestToCodex`,
as the composition of its phases in source order. -/

/-- The one-message array wrapping a bare string `input`. -/
def wrappedInput (s : String) : Json :=
  Json.arr [Json.obj [("type", Json.str "message"), ("role", Json.str "user"),
    ("content", Json.arr [Json.obj [("type", Json.str "input_text"), ("text", Json.str s)]])]]

/-- Step 1: wrap a bare string `input`. -/
def wrapInputStr (d : Doc) : Doc :=
  match lookupKey "input" d with
  | some (.str s) => setKey "input" (wrappedInput s) d
  | _ => d

/-- Step 2: force the streaming / persistence flags. -/
def forceFlags (d : Doc) : Doc :=
  let d := setKey "stream" (Json.bool true) d
  let d := setKey "store" (Json.bool false) d
  let d := setKey "parallel_tool_calls" (Json.bool true) d
  setKey "include" (Json.arr [Json.str "reasoning.encrypted_content"]) d

/-- Step 3: strip backend-unsupported fields. -/
def stripFields (d : Doc) : Doc :=
  let d := delKey "max_output_tokens" d
  let d := delKey "max_completion_tokens" d
  let d := delKey "temperature" d
  let d := delKey "top_p" d
  let d := delKey "service_tier" d
  delKey "user" d

/-- The per-item system-to-developer rewrite. -/
def roleFix (it : Json) : Json :=
  if getStr it "role" = "system" then
    match it with
    | Json.obj fs => Json.obj (setKey "role" (Json.str "developer") fs)
    | j => j
  else it

/-- `convertSystemRoleToDeveloper` from `codex_openai-responses_request.go`. -/
def convertSystemRoleToDeveloper (d : Doc) : Doc :=
  match lookupKey "input" d with
  | some (.arr items) => setKey "input" (Json.arr (items.map roleFix)) d
  | _ => d

/-- Write a shortened call identifier back into an item. -/
def setCallID (it : Json) (v : String) : Json :=
  match it with
  | Json.obj fs => Json.obj (setKey "call_id" (Json.str v) fs)
  | j => j

/-- One iteration of the `normalizeInputCallIDs` loop: items without a
`call_id` are skipped, identifiers already normal are left in place. -/
def nciStep (p : List Json × CallCache) (it : Json) : List Json × CallCache :=
  let cid := getStr it "call_id"
  if cid = "" then (p.1 ++ [it], p.2)
  else
    let r := normCallID cid p.2
    if r.1 = cid then (p.1 ++ [it], r.2)
    else (p.1 ++ [setCallID it r.1], r.2)

/-- `normalizeInputCallIDs` from `codex_openai-responses_request.go`: one
cache shared across the whole `input` array. -/
def normalizeInputCallIDs (d : Doc) : Doc :=
  match lookupKey "input" d with
  | some (.arr items) =>
    setKey "input" (Json.arr (items.foldl nciStep ([], [])).1) d
  | _ => d

/-- `ConvertOpenAIResponsesRequestToCodex` from
`codex_openai-responses_request.go` (model name and stream flag unused there). -/
def ConvertOpenAIResponsesRequestToCodex (_modelName : String) (d : Doc) (_stream : Bool) : Doc :=
  normalizeInputCallIDs (convertSystemRoleToDeveloper (stripFields (forceFlags (wrapInputStr d))))

/-! Auxiliary definitions used by the claim statements. -/

/-- The pattern `__` occurs in `s` at character index `i`. -/
def dunderAt (s : String) (i : Nat) : Prop := (s.data.drop i).take 2 = ['_', '_']

instance (s : String) (i : Nat) : Decidable (dunderAt s i) := by
  unfold dunderAt; infer_instance

/-- The `tool_calls` array of an assistant message (empty when absent or not an array). -/
def toolCallsOf (m : Json) : List Json :=
  match m.get "tool_calls" with
  | some (.arr tcs) => tcs
  | _ => []

/-- Spec-side restatement: the `function_call` item emitted for one
function-type tool call, with the pure (cache-free) identifier shortener. -/
def specFunctionCallItem (nameMap : List (String × String)) (tc : Json) : Json :=
  Json.obj [("type", Json.str "function_call"),
            ("call_id", Json.str (shortenCallID (getStr tc "id"))),
            ("name", Json.str (mapName nameMap (getStr2 tc "function" "name"))),
            ("arguments", Json.str (getStr2 tc "function" "arguments"))]

/-- Spec-side restatement: the `function_call_output` item emitted for a
`tool`-role message, with the pure identifier shortener. -/
def specFunctionOutputItem (m : Json) : Json :=
  Json.obj [("type", Json.str "function_call_output"),
            ("call_id", Json.str (shortenCallID (getStr m "tool_call_id"))),
            ("output", Json.str (getStr m "content"))]

/-- Spec-side restatement of the message transform: a `tool` message yields
exactly one `function_call_output` item and no message item; any other
message yields one message item, followed (for assistant messages) by one
`function_call` item per function-type tool call, in call order. -/
def specMessageItems (nameMap : List (String × String)) (m : Json) : List Json :=
  let role := getStr m "role"
  if role = "tool" then [specFunctionOutputItem m]
  else
    messageItem role m ::
      (if role = "assistant" then
        (toolCallsOf m).filterMap (fun tc =>
          if getStr tc "type" = "function" then some (specFunctionCallItem nameMap tc) else none)
      else [])

/-- The cache-free form of one step of `normalizeInputCallIDs`. -/
def pureNormItem (it : Json) : Json :=
  let cid := getStr it "call_id"
  if cid = "" then it
  else if shortenCallID cid = cid then it
  else setCallID it (shortenCallID cid)

/-- Well-formedness of a top-level document: its keys are pairwise distinct
(the JSON-object reading of the data model; first-match set/delete then
coincide with map update/removal). -/
def keysNodup (d : Doc) : Prop := (d.map Prod.fst).Nodup

/-- Numeric value of a decimal digit character. -/
def digitVal (c : Char) : Nat := c.toNat - 48

/-- Value of a decimal digit string (most significant first). -/
def ofDigits (cs : List Char) : Nat := cs.foldl (fun a c => a * 10 + digitVal c) 0

/-- Value of the maximal decimal-digit suffix of a string: recovers the
numeric counter from a `makeUnique` candidate. -/
def recNum (s : String) : Nat :=
  ofDigits ((s.data.reverse.takeWhile Char.isDigit).reverse)

/-! Basic lemmas about the association-list operations. -/

theorem lookupKey_mem {β : Type} {k : String} {v : β} :
    ∀ {l : List (String × β)}, lookupKey k l = some v → (k, v) ∈ l := by
  intro l
  induction l with
  | nil => intro h; simp [lookupKey] at h
  | cons q t ih =>
    intro h
    obtain ⟨k0, v0⟩ := q
    by_cases hq : k0 = k
    · subst hq
      simp [lookupKey] at h
      subst h
      exact List.mem_cons_self _ _
    · simp [lookupKey, hq] at h
      exact List.mem_cons_of_mem _ (ih h)

theorem lookupKey_setKey_self {β : Type} (k : String) (v : β) (l : List (String × β)) :
    lookupKey k (setKey k v l) = some v := by
  induction l with
  | nil => simp [setKey, lookupKey]
  | cons q t ih =>
    obtain ⟨k0, v0⟩ := q
    by_cases hq : k0 = k
    · simp [setKey, hq, lookupKey]
    · simp [setKey, hq, lookupKey, ih]

theorem lookupKey_setKey_ne {β : Type} {k0 k : String} (h : k0 ≠ k) (v : β)
    (l : List (String × β)) : lookupKey k (setKey k0 v l) = lookupKey k l := by
  induction l with
  | nil => simp [setKey, lookupKey, h]
  | cons q t ih =>
    obtain ⟨k1, v1⟩ := q
    by_cases hq : k1 = k0
    · subst hq
      simp [setKey, lookupKey, h, Ne.symm h]
    · by_cases hk : k1 = k
      · simp [setKey, hq, lookupKey, hk, Ne.symm h]
      · simp [setKey, hq, lookupKey, hk, ih]

theorem setKey_eq_of_lookup {β : Type} {k : String} {v : β} :
    ∀ {l : List (String × β)}, lookupKey k l = some v → setKey k v l = l := by
  intro l
  induction l with
  | nil => intro h; simp [lookupKey] at h
  | cons q t ih =>
    intro h
    obtain ⟨k0, v0⟩ := q
    by_cases hq : k0 = k
    · subst hq
      simp [lookupKey] at h
      simp [setKey, h]
    · simp [lookupKey, hq] at h
      simp [setKey, hq, ih h]

theorem mem_setKey {β : Type} {p : String × β} {k : String} {v : β} :
    ∀ {l : List (String × β)}, p ∈ setKey k v l → p = (k, v) ∨ p ∈ l := by
  intro l
  induction l with
  | nil => intro h; simp [setKey] at h; exact Or.inl h
  | cons q t ih =>
    intro h
    obtain ⟨k0, v0⟩ := q
    by_cases hq : k0 = k
    · simp only [setKey, if_pos hq, List.mem_cons] at h
      rcases h with h | h
      · exact Or.inl h
      · exact Or.inr (List.mem_cons_of_mem _ h)
    · simp only [setKey, if_neg hq, List.mem_cons] at h
      rcases h with h | h
      · exact Or.inr (by simp [h])
      · rcases ih h with h1 | h1
        · exact Or.inl h1
        · exact Or.inr (List.mem_cons_of_mem _ h1)

theorem lookupKey_eq_none_of_not_keys {β : Type} {k : String} :
    ∀ {l : List (String × β)}, k ∉ l.map Prod.fst → lookupKey k l = none := by
  intro l
  induction l with
  | nil => intro _; rfl
  | cons q t ih =>
    intro h
    obtain ⟨k0, v0⟩ := q
    rw [List.map_cons, List.mem_cons] at h
    push_neg at h
    have hk0 : ¬k0 = k := fun hh => h.1 hh.symm
    simp [lookupKey, hk0, ih h.2]

theorem keys_of_lookupKey_some {β : Type} {k : String} {v : β}
    {l : List (String × β)} (h : lookupKey k l = some v) : k ∈ l.map Prod.fst :=
  List.mem_map.mpr ⟨(k, v), lookupKey_mem h, rfl⟩

theorem lookupKey_delKey_ne {β : Type} {k0 k : String} (h : k0 ≠ k) :
    ∀ (l : List (String × β)), lookupKey k (delKey k0 l) = lookupKey k l := by
  intro l
  induction l with
  | nil => rfl
  | cons q t ih =>
    obtain ⟨k1, v1⟩ := q
    by_cases hq : k1 = k0
    · subst hq
      simp [delKey, lookupKey, h]
    · by_cases hk : k1 = k
      · simp [delKey, hq, lookupKey, hk, Ne.symm h]
      · simp [delKey, hq, lookupKey, hk, ih]

theorem delKey_of_lookup_none {β : Type} {k : String} :
    ∀ {l : List (String × β)}, lookupKey k l = none → delKey k l = l := by
  intro l
  induction l with
  | nil => intro _; rfl
  | cons q t ih =>
    intro h
    obtain ⟨k0, v0⟩ := q
    by_cases hq : k0 = k
    · simp [lookupKey, hq] at h
    · simp [lookupKey, hq] at h
      simp [delKey, hq, ih h]

theorem lookupKey_delKey_self {β : Type} (k : String) :
    ∀ (l : List (String × β)), (l.map Prod.fst).Nodup → lookupKey k (delKey k l) = none := by
  intro l
  induction l with
  | nil => intro _; rfl
  | cons q t ih =>
    intro h
    obtain ⟨k0, v0⟩ := q
    rw [List.map_cons, List.nodup_cons] at h
    by_cases hq : k0 = k
    · subst hq
      simp only [delKey, if_pos rfl]
      exact lookupKey_eq_none_of_not_keys h.1
    · simp [delKey, hq, lookupKey, hq, ih h.2]

theorem keys_setKey_mem {β : Type} {a k : String} {v : β}
    {l : List (String × β)} (h : a ∈ (setKey k v l).map Prod.fst) :
    a = k ∨ a ∈ l.map Prod.fst := by
  rcases List.mem_map.mp h with ⟨p, hp, hpa⟩
  rcases mem_setKey hp with h1 | h1
  · exact Or.inl (by rw [← hpa, h1])
  · exact Or.inr (List.mem_map.mpr ⟨p, h1, hpa⟩)

theorem nodup_keys_setKey {β : Type} (k : String) (v : β) :
    ∀ (l : List (String × β)), (l.map Prod.fst).Nodup →
      ((setKey k v l).map Prod.fst).Nodup := by
  intro l
  induction l with
  | nil => intro _; simp [setKey]
  | cons q t ih =>
    intro h
    obtain ⟨k0, v0⟩ := q
    rw [List.map_cons, List.nodup_cons] at h
    by_cases hq : k0 = k
    · subst hq
      have hset : setKey k0 v ((k0, v0) :: t) = (k0, v) :: t := by simp [setKey]
      rw [hset, List.map_cons, List.nodup_cons]
      exact ⟨by simpa using h.1, h.2⟩
    · simp only [setKey, if_neg hq, List.map_cons, List.nodup_cons]
      refine ⟨?_, ih h.2⟩
      intro hmem
      rcases keys_setKey_mem hmem with h1 | h1
      · exact hq h1
      · exact h.1 h1

theorem keys_delKey_sublist {β : Type} (k : String) :
    ∀ (l : List (String × β)), List.Sublist ((delKey k l).map Prod.fst) (l.map Prod.fst) := by
  intro l
  induction l with
  | nil => simp [delKey]
  | cons q t ih =>
    obtain ⟨k0, v0⟩ := q
    by_cases hq : k0 = k
    · simp only [delKey, if_pos hq, List.map_cons]
      exact List.sublist_cons_self _ _
    · simp only [delKey, if_neg hq, List.map_cons]
      exact List.Sublist.cons₂ _ ih

theorem nodup_keys_delKey {β : Type} (k : String) (l : List (String × β))
    (h : (l.map Prod.fst).Nodup) : ((delKey k l).map Prod.fst).Nodup :=
  List.Nodup.sublist (keys_delKey_sublist k l) h

/-! String-operation lemmas. -/

theorem strLen_strTake (s : String) (n : Nat) : strLen (strTake s n) = min n (strLen s) := by
  simp [strLen, strTake]

theorem strLen_strCat (a b : String) : strLen (strCat a b) = strLen a + strLen b := by
  simp [strLen, strCat]

theorem strCat_data (a b : String) : (strCat a b).data = a.data ++ b.data := rfl

theorem strTake_len_le (s : String) (n : Nat) : strLen (strTake s n) ≤ n := by
  rw [strLen_strTake]; exact Nat.min_le_left _ _

theorem isPrefixOf_append_self (l t : List Char) : l.isPrefixOf (l ++ t) = true := by
  induction l with
  | nil => simp [List.isPrefixOf]
  | cons c cs ih => simp [List.isPrefixOf, ih]

/-! Lemmas about the call-identifier shortener. -/

theorem strLen_call5 : strLen "call_" = 5 := by decide

theorem shortenCallID_short {id : String} (h : strLen id ≤ 64) : shortenCallID id = id := by
  simp [shortenCallID, h]

theorem strLen_shortenCallID (id : String) : strLen (shortenCallID id) ≤ 64 := by
  by_cases h : strLen id ≤ 64
  · rw [shortenCallID_short h]; exact h
  · simp only [shortenCallID, if_neg h]
    split
    next h2 =>
      rw [strLen_strCat, strLen_call5]
      have := strTake_len_le (sha256Hex id) (64 - strLen "call_")
      rw [strLen_call5] at this
      omega
    next h2 =>
      rw [strLen_strCat, strLen_call5]
      rw [strLen_call5] at h2
      omega

theorem shortenCallID_startsWith {id : String} (h : 64 < strLen id) :
    strStartsWith (shortenCallID id) "call_" = true := by
  rw [shortenCallID]
  simp only [if_neg (by omega : ¬strLen id ≤ 64)]
  rw [strStartsWith, strCat_data]
  exact isPrefixOf_append_self _ _

theorem shortenCallID_ne_self {id : String} (h : 64 < strLen id) :
    shortenCallID id ≠ id := by
  intro hEq
  have := strLen_shortenCallID id
  rw [hEq] at this
  omega

/-! Lemmas about the cached call-identifier normalizer: with a coherent
cache it computes exactly the pure shortener, and coherence is preserved. -/

theorem cacheOK_nil : cacheOK [] := by
  intro p hp
  simp at hp

theorem normCallID_fst {id : String} {c : CallCache} (hc : cacheOK c) :
    (normCallID id c).1 = shortenCallID id := by
  rw [normCallID]
  by_cases h : id = "" ∨ strLen id ≤ 64
  · have hlen : strLen id ≤ 64 := by
      rcases h with h | h
      · subst h; decide
      · exact h
    simp only [if_pos h]
    exact (shortenCallID_short hlen).symm
  · simp only [if_neg h]
    cases heq : lookupKey id c with
    | none => rfl
    | some s => exact hc (id, s) (lookupKey_mem heq)

theorem normCallID_cacheOK {id : String} {c : CallCache} (hc : cacheOK c) :
    cacheOK (normCallID id c).2 := by
  rw [normCallID]
  by_cases h : id = "" ∨ strLen id ≤ 64
  · simpa only [if_pos h] using hc
  · simp only [if_neg h]
    cases heq : lookupKey id c with
    | none =>
      intro p hp
      rcases mem_setKey hp with h1 | h1
      · rw [h1]
      · exact hc p h1
    | some s => exact hc

/-- Claim C3 helper: the one-name shortening bound and identity on short names. -/
theorem shortenNameIfNeeded_len (name : String) : strLen (shortenNameIfNeeded name) ≤ 64 := by
  rw [shortenNameIfNeeded]
  by_cases h : strLen name ≤ 64
  · simpa only [if_pos h] using h
  · simp only [if_neg h]
    by_cases hp : strStartsWith name "mcp__" = true
    · simp only [hp, if_true]
      by_cases hi : (0 : Int) < lastDunder name
      · simp only [if_pos hi]
        by_cases hc : 64 < strLen (strCat "mcp__" (strDrop name ((lastDunder name).toNat + 2)))
        · simp only [if_pos hc]
          exact le_trans (strTake_len_le _ _) (le_refl _)
        · simp only [if_neg hc]
          omega
      · simp only [if_neg hi]
        exact strTake_len_le _ _
    · simp only [Bool.not_eq_true] at hp
      simp only [hp, Bool.false_eq_true, if_false]
      exact strTake_len_le _ _

/-! Lemmas about `natListMax`, `dunderIdxs` and `lastDunder`. -/

theorem natListMax_mem : ∀ {l : List Nat} {m : Nat}, natListMax l = some m → m ∈ l := by
  intro l
  induction l with
  | nil => intro m h; simp [natListMax] at h
  | cons x xs ih =>
    intro m h
    rw [natListMax] at h
    cases heq : natListMax xs with
    | none =>
      rw [heq] at h
      simp at h
      simp [h]
    | some m0 =>
      rw [heq] at h
      simp at h
      have hcase : m = x ∨ m = m0 := by
        by_cases hle : x ≤ m0
        · rw [if_pos hle] at h; exact Or.inr h.symm
        · rw [if_neg hle] at h; exact Or.inl h.symm
      rcases hcase with h1 | h1
      · simp [h1]
      · exact List.mem_cons_of_mem _ (h1 ▸ ih heq)

theorem le_natListMax : ∀ {l : List Nat} {a : Nat}, a ∈ l →
    ∃ m, natListMax l = some m ∧ a ≤ m := by
  intro l
  induction l with
  | nil => intro a h; simp at h
  | cons x xs ih =>
    intro a h
    rcases List.mem_cons.mp h with h | h
    · subst h
      cases heq : natListMax xs with
      | none => exact ⟨a, by rw [natListMax, heq], le_refl a⟩
      | some m0 =>
        refine ⟨if a ≤ m0 then m0 else a, by rw [natListMax, heq], ?_⟩
        by_cases hle : a ≤ m0
        · rw [if_pos hle]; exact hle
        · rw [if_neg hle]
    · obtain ⟨m0, heq, hle⟩ := ih h
      refine ⟨if x ≤ m0 then m0 else x, by rw [natListMax, heq], ?_⟩
      by_cases hxle : x ≤ m0
      · rw [if_pos hxle]; exact hle
      · rw [if_neg hxle]; omega

theorem dunderAt_lt {s : String} {i : Nat} (h : dunderAt s i) : i < s.data.length := by
  unfold dunderAt at h
  have hlen : ((s.data.drop i).take 2).length = 2 := by rw [h]; rfl
  rw [List.length_take, List.length_drop] at hlen
  omega

theorem mem_dunderIdxs {s : String} {i : Nat} (h : dunderAt s i) : i ∈ dunderIdxs s.data := by
  unfold dunderIdxs
  rw [List.mem_filter]
  exact ⟨List.mem_range.mpr (dunderAt_lt h), decide_eq_true h⟩

theorem dunderAt_of_mem {s : String} {i : Nat} (h : i ∈ dunderIdxs s.data) : dunderAt s i := by
  unfold dunderIdxs at h
  exact of_decide_eq_true (List.mem_filter.mp h).2

theorem lastDunder_spec {s : String} (h : ∃ i, dunderAt s i) :
    ∃ m : Nat, lastDunder s = (m : Int) ∧ dunderAt s m ∧ ∀ j, dunderAt s j → j ≤ m := by
  obtain ⟨i, hi⟩ := h
  obtain ⟨m, hm, _⟩ := le_natListMax (mem_dunderIdxs hi)
  refine ⟨m, by simp [lastDunder, hm], dunderAt_of_mem (natListMax_mem hm), ?_⟩
  intro j hj
  obtain ⟨m2, hm2, hjm⟩ := le_natListMax (mem_dunderIdxs hj)
  rw [hm] at hm2
  injection hm2 with hmm
  rwa [hmm]

/-- C3: the single-name shortener always returns at most 64 characters, and
returns any name of at most 64 characters (including the empty string and the
64-character boundary) unchanged. -/
theorem claim3_shorten_name_bound (name : String) :
    strLen (shortenNameIfNeeded name) ≤ 64 ∧
    (strLen name ≤ 64 → shortenNameIfNeeded name = name) :=
  ⟨shortenNameIfNeeded_len name, fun h => by simp [shortenNameIfNeeded, h]⟩

/-- C3 witness: the empty name and an exactly-64-character name pass through
unchanged; a 70-character name is shortened to within the bound. -/
theorem claim3_witness :
    shortenNameIfNeeded "" = "" ∧
    shortenNameIfNeeded (String.mk (List.replicate 64 'x')) = String.mk (List.replicate 64 'x') ∧
    strLen (shortenNameIfNeeded (String.mk (List.replicate 70 'x'))) ≤ 64 :=
  ⟨(claim3_shorten_name_bound "").2 (by decide),
   (claim3_shorten_name_bound (String.mk (List.replicate 64 'x'))).2 (by decide),
   (claim3_shorten_name_bound (String.mk (List.replicate 70 'x'))).1⟩

/-- C4: an over-64-character name carrying the `mcp__` namespace marker and a
`__` separator after it shortens to `mcp__` plus the segment following the
last `__` occurrence, truncated to 64 characters only when that candidate is
itself still longer than 64. -/
theorem claim4_mcp_shortening (name : String) (h64 : 64 < strLen name)
    (hpre : strStartsWith name "mcp__" = true)
    (hsep : ∃ i, 5 ≤ i ∧ dunderAt name i) :
    ∃ idx, 5 ≤ idx ∧ dunderAt name idx ∧ (∀ j, dunderAt name j → j ≤ idx) ∧
      shortenNameIfNeeded name =
        (if 64 < strLen (strCat "mcp__" (strDrop name (idx + 2))) then
           strTake (strCat "mcp__" (strDrop name (idx + 2))) 64
         else strCat "mcp__" (strDrop name (idx + 2))) := by
  obtain ⟨i, hi5, hidun⟩ := hsep
  obtain ⟨m, hm, hmdun, hmax⟩ := lastDunder_spec ⟨i, hidun⟩
  have h5m : 5 ≤ m := le_trans hi5 (hmax i hidun)
  refine ⟨m, h5m, hmdun, hmax, ?_⟩
  rw [shortenNameIfNeeded]
  simp only [if_neg (by omega : ¬strLen name ≤ 64), hpre, if_true]
  rw [hm]
  have hpos : (0 : Int) < (m : Int) := by exact_mod_cast (by omega : 0 < m)
  simp only [if_pos hpos, show ((m : Nat) : Int).toNat = m from rfl]

/-- C4 witness: a 69-character `mcp__`-namespaced name with its last `__` at
index 63 shortens per the preserved-suffix rule. -/
theorem claim4_witness :
    ∃ idx, 5 ≤ idx ∧
      dunderAt "mcp__xxxxxxxxxxxxxxxxxxxxxxxxxxxxxxxxxxxxxxxxxxxxxxxxxxxxxxxxxx__tool" idx ∧
      (∀ j, dunderAt "mcp__xxxxxxxxxxxxxxxxxxxxxxxxxxxxxxxxxxxxxxxxxxxxxxxxxxxxxxxxxx__tool" j →
        j ≤ idx) ∧
      shortenNameIfNeeded "mcp__xxxxxxxxxxxxxxxxxxxxxxxxxxxxxxxxxxxxxxxxxxxxxxxxxxxxxxxxxx__tool" =
        (if 64 < strLen (strCat "mcp__"
            (strDrop "mcp__xxxxxxxxxxxxxxxxxxxxxxxxxxxxxxxxxxxxxxxxxxxxxxxxxxxxxxxxxx__tool" (idx + 2))) then
           strTake (strCat "mcp__"
            (strDrop "mcp__xxxxxxxxxxxxxxxxxxxxxxxxxxxxxxxxxxxxxxxxxxxxxxxxxxxxxxxxxx__tool" (idx + 2))) 64
         else strCat "mcp__"
            (strDrop "mcp__xxxxxxxxxxxxxxxxxxxxxxxxxxxxxxxxxxxxxxxxxxxxxxxxxxxxxxxxxx__tool" (idx + 2))) :=
  claim4_mcp_shortening _ (by decide) (by decide) ⟨63, by decide, by decide⟩

/-! Characterization of the messages loop: with a coherent cache, each fold
step emits exactly the spec-side items built with the pure shortener. -/

theorem tcStep_spec {nameMap : List (String × String)} {acc : List Json}
    {c : CallCache} (tc : Json) (hc : cacheOK c) :
    (tcStep nameMap (acc, c) tc).1 =
      acc ++ ((fun tc0 => if getStr tc0 "type" = "function"
                then some (specFunctionCallItem nameMap tc0) else none) tc).toList ∧
    cacheOK (tcStep nameMap (acc, c) tc).2 := by
  rw [tcStep]
  by_cases h : getStr tc "type" = "function"
  · simp only [if_pos h]
    constructor
    · rw [normCallID_fst hc]
      simp [specFunctionCallItem, h]
    · exact normCallID_cacheOK hc
  · simp [h, hc]

theorem toolCallItems_foldl_spec (nameMap : List (String × String)) :
    ∀ (tcs : List Json) (acc : List Json) (c : CallCache), cacheOK c →
      (tcs.foldl (tcStep nameMap) (acc, c)).1 =
        acc ++ tcs.filterMap (fun tc => if getStr tc "type" = "function"
          then some (specFunctionCallItem nameMap tc) else none) ∧
      cacheOK (tcs.foldl (tcStep nameMap) (acc, c)).2 := by
  intro tcs
  induction tcs with
  | nil => intro acc c hc; simp [hc]
  | cons tc rest ih =>
    intro acc c hc
    rw [List.foldl_cons]
    obtain ⟨h1, h2⟩ := @tcStep_spec nameMap acc c tc hc
    have hsurj : tcStep nameMap (acc, c) tc =
        ((tcStep nameMap (acc, c) tc).1, (tcStep nameMap (acc, c) tc).2) := rfl
    rw [hsurj, h1]
    obtain ⟨ih1, ih2⟩ := ih (acc ++ _) _ h2
    refine ⟨?_, ih2⟩
    rw [ih1, List.filterMap_cons]
    by_cases h : getStr tc "type" = "function"
    · simp [h]
    · simp [h]

theorem convertMessage_spec {nameMap : List (String × String)} {c : CallCache}
    (m : Json) (hc : cacheOK c) :
    (convertMessage nameMap c m).1 = specMessageItems nameMap m ∧
    cacheOK (convertMessage nameMap c m).2 := by
  rw [convertMessage, specMessageItems]
  by_cases hrole : getStr m "role" = "tool"
  · simp only [hrole, if_pos rfl, if_true]
    constructor
    · rw [normCallID_fst hc]
      simp [specFunctionOutputItem, hrole]
    · exact normCallID_cacheOK hc
  · simp only [if_neg hrole]
    by_cases hassist : getStr m "role" = "assistant"
    · simp only [hassist, if_pos rfl, if_true]
      cases htc : m.get "tool_calls" with
      | none => simp [toolCallsOf, htc, hc]
      | some v =>
        cases v with
        | arr tcs =>
          obtain ⟨h1, h2⟩ := toolCallItems_foldl_spec nameMap tcs [] c hc
          simp only [toolCallsOf, htc]
          unfold toolCallItems
          exact ⟨by rw [h1]; simp, h2⟩
        | null => simp [toolCallsOf, htc, hc]
        | bool b => simp [toolCallsOf, htc, hc]
        | num n => simp [toolCallsOf, htc, hc]
        | str s => simp [toolCallsOf, htc, hc]
        | obj fs => simp [toolCallsOf, htc, hc]
    · simp [hassist, hc]

theorem convertMessages_foldl_spec (nameMap : List (String × String)) :
    ∀ (ms : List Json) (acc : List Json) (c : CallCache), cacheOK c →
      (ms.foldl (cmStep nameMap) (acc, c)).1 =
        acc ++ ms.flatMap (specMessageItems nameMap) ∧
      cacheOK (ms.foldl (cmStep nameMap) (acc, c)).2 := by
  intro ms
  induction ms with
  | nil => intro acc c hc; simp [hc]
  | cons m rest ih =>
    intro acc c hc
    rw [List.foldl_cons]
    obtain ⟨h1, h2⟩ := @convertMessage_spec nameMap c m hc
    have hstep : cmStep nameMap (acc, c) m =
        (acc ++ (convertMessage nameMap c m).1, (convertMessage nameMap c m).2) := rfl
    rw [hstep, h1]
    obtain ⟨ih1, ih2⟩ := ih (acc ++ specMessageItems nameMap m) _ h2
    exact ⟨by rw [ih1, List.flatMap_cons, List.append_assoc], ih2⟩

theorem convertMessages_spec (nameMap : List (String × String)) (ms : List Json) :
    (convertMessages nameMap ms []).1 = ms.flatMap (specMessageItems nameMap) := by
  rw [convertMessages]
  exact (convertMessages_foldl_spec nameMap ms [] [] cacheOK_nil).1

/-! Frame lemmas: each later phase of the converter leaves unrelated
top-level keys untouched. -/

theorem lookup_docSetPath_ne {k0 k : String} (h : k0 ≠ k) (o : Doc)
    (rest : List String) (v : Json) :
    lookupKey k (docSetPath o k0 rest v) = lookupKey k o := by
  cases rest with
  | nil => exact lookupKey_setKey_ne h _ _
  | cons r rs =>
    rw [docSetPath]
    cases lookupKey k0 o with
    | none => exact lookupKey_setKey_ne h _ _
    | some child => exact lookupKey_setKey_ne h _ _


theorem lookup_ccText_ne (req out : Doc) {k : String} (hk : k ≠ "text") :
    lookupKey k (ccText req out) = lookupKey k out := by
  simp only [ccText]
  repeat' split
  all_goals simp only [lookup_docSetPath_ne (Ne.symm hk), lookupKey_setKey_ne (Ne.symm hk)]

theorem lookup_ccTools_ne (nameMap : List (String × String)) (req out : Doc)
    {k : String} (hk : k ≠ "tools") :
    lookupKey k (ccTools nameMap req out) = lookupKey k out := by
  simp only [ccTools]
  repeat' split
  all_goals simp only [lookupKey_setKey_ne (Ne.symm hk)]

theorem lookup_ccToolChoice_ne (nameMap : List (String × String)) (req out : Doc)
    {k : String} (hk : k ≠ "tool_choice") :
    lookupKey k (ccToolChoice nameMap req out) = lookupKey k out := by
  simp only [ccToolChoice]
  repeat' split
  all_goals simp only [lookupKey_setKey_ne (Ne.symm hk)]

/-- C5: the converter transforms `messages` in one order-preserving pass:
the output `input` array is exactly the concatenation, message by message, of
the per-message items; a `tool` message contributes exactly one
`function_call_output` item (and no message item); any other message
contributes one message item, and an assistant message additionally one
`function_call` item per function-type tool call, after the message item, in
call order. -/
theorem claim5_single_pass (model : String) (req : Doc) (stream : Bool)
    (ms : List Json) (hm : lookupKey "messages" req = some (Json.arr ms)) :
    lookupKey "input" (ConvertOpenAIRequestToCodex model req stream) =
      some (Json.arr (ms.flatMap (specMessageItems (reqNameMap req)))) ∧
    (∀ m, getStr m "role" = "tool" →
      specMessageItems (reqNameMap req) m = [specFunctionOutputItem m]) ∧
    (∀ m, getStr m "role" ≠ "tool" → getStr m "role" ≠ "assistant" →
      specMessageItems (reqNameMap req) m = [messageItem (getStr m "role") m]) ∧
    (∀ m, getStr m "role" = "assistant" →
      specMessageItems (reqNameMap req) m =
        messageItem "assistant" m ::
          (toolCallsOf m).filterMap (fun tc =>
            if getStr tc "type" = "function" then
              some (specFunctionCallItem (reqNameMap req) tc)
            else none)) := by
  refine ⟨?_, ?_, ?_, ?_⟩
  · rw [ConvertOpenAIRequestToCodex]
    rw [lookupKey_setKey_ne (by decide : "store" ≠ "input")]
    rw [lookup_ccToolChoice_ne _ _ _ (by decide : "input" ≠ "tool_choice")]
    rw [lookup_ccTools_ne _ _ _ (by decide : "input" ≠ "tools")]
    rw [lookup_ccText_ne _ _ (by decide : "input" ≠ "text")]
    rw [ccInput, lookupKey_setKey_self]
    rw [msgsArr, hm, convertMessages_spec]
  · intro m hrole
    simp [specMessageItems, hrole]
  · intro m hrole hassist
    simp [specMessageItems, hrole, hassist]
  · intro m hassist
    simp [specMessageItems, hassist]

/-- C5 witness: a three-message conversation (system text, tool response,
assistant with one function tool call) converts to the spec-side item list. -/
theorem claim5_witness :
    lookupKey "input" (ConvertOpenAIRequestToCodex "m"
      [("messages", Json.arr
        [Json.obj [("role", Json.str "system"), ("content", Json.str "Be terse.")],
         Json.obj [("role", Json.str "tool"), ("tool_call_id", Json.str "abc"),
                   ("content", Json.str "42")],
         Json.obj [("role", Json.str "assistant"),
                   ("tool_calls", Json.arr [Json.obj
                     [("id", Json.str "xyz"), ("type", Json.str "function"),
                      ("function", Json.obj [("name", Json.str "foo"),
                                             ("arguments", Json.str "{}")])]])]])]
      false) =
    some (Json.arr
      ([Json.obj [("role", Json.str "system"), ("content", Json.str "Be terse.")],
        Json.obj [("role", Json.str "tool"), ("tool_call_id", Json.str "abc"),
                  ("content", Json.str "42")],
        Json.obj [("role", Json.str "assistant"),
                  ("tool_calls", Json.arr [Json.obj
                    [("id", Json.str "xyz"), ("type", Json.str "function"),
                     ("function", Json.obj [("name", Json.str "foo"),
                                            ("arguments", Json.str "{}")])]])]].flatMap
        (specMessageItems (reqNameMap
          [("messages", Json.arr
            [Json.obj [("role", Json.str "system"), ("content", Json.str "Be terse.")],
             Json.obj [("role", Json.str "tool"), ("tool_call_id", Json.str "abc"),
                       ("content", Json.str "42")],
             Json.obj [("role", Json.str "assistant"),
                       ("tool_calls", Json.arr [Json.obj
                         [("id", Json.str "xyz"), ("type", Json.str "function"),
                          ("function", Json.obj [("name", Json.str "foo"),
                                                 ("arguments", Json.str "{}")])]])]])])))) := by
  refine (claim5_single_pass "m" _ false _ ?_).1
  rfl

/-! Characterization of `normalizeInputCallIDs`: with a coherent cache the
loop maps each item through the pure per-item normalization. -/

theorem nciStep_spec {acc : List Json} {c : CallCache} (it : Json) (hc : cacheOK c) :
    (nciStep (acc, c) it).1 = acc ++ [pureNormItem it] ∧
    cacheOK (nciStep (acc, c) it).2 := by
  rw [nciStep, pureNormItem]
  by_cases h0 : getStr it "call_id" = ""
  · simp [h0, hc]
  · simp only [if_neg h0]
    have hfst := @normCallID_fst (getStr it "call_id") c hc
    have hco := @normCallID_cacheOK (getStr it "call_id") c hc
    by_cases heq : (normCallID (getStr it "call_id") c).1 = getStr it "call_id"
    · rw [if_pos heq, if_pos (hfst ▸ heq)]
      exact ⟨rfl, hco⟩
    · rw [if_neg heq, if_neg (hfst ▸ heq)]
      rw [← hfst]
      exact ⟨rfl, hco⟩

theorem nci_foldl_spec :
    ∀ (items : List Json) (acc : List Json) (c : CallCache), cacheOK c →
      (items.foldl nciStep (acc, c)).1 = acc ++ items.map pureNormItem ∧
      cacheOK (items.foldl nciStep (acc, c)).2 := by
  intro items
  induction items with
  | nil => intro acc c hc; simp [hc]
  | cons it rest ih =>
    intro acc c hc
    rw [List.foldl_cons]
    obtain ⟨h1, h2⟩ := @nciStep_spec acc c it hc
    have hsurj : nciStep (acc, c) it = ((nciStep (acc, c) it).1, (nciStep (acc, c) it).2) := rfl
    rw [hsurj, h1]
    obtain ⟨ih1, ih2⟩ := ih (acc ++ [pureNormItem it]) _ h2
    exact ⟨by rw [ih1, List.map_cons]; simp, ih2⟩

theorem normalizeInputCallIDs_arr {d : Doc} {items : List Json}
    (h : lookupKey "input" d = some (Json.arr items)) :
    lookupKey "input" (normalizeInputCallIDs d) =
      some (Json.arr (items.map pureNormItem)) := by
  rw [normalizeInputCallIDs, h, lookupKey_setKey_self,
      (nci_foldl_spec items [] [] cacheOK_nil).1]
  simp

theorem getStr_of_not_obj {it : Json} (h : it.isObj = false) (k : String) :
    getStr it k = "" := by
  cases it <;> simp_all [getStr, Json.get, Json.isObj]

theorem getStr_setCallID_self {it : Json} (h : it.isObj = true) (v : String) :
    getStr (setCallID it v) "call_id" = v := by
  cases it <;> simp_all [setCallID, getStr, Json.get, Json.isObj, lookupKey_setKey_self, goString]

/-- The normalized item always carries the hash-shortened identifier (the
shortener is the identity on identifiers that are empty or already short). -/
theorem pureNormItem_callid (it : Json) :
    getStr (pureNormItem it) "call_id" = shortenCallID (getStr it "call_id") := by
  rw [pureNormItem]
  by_cases h0 : getStr it "call_id" = ""
  · rw [if_pos h0, h0, shortenCallID_short (by decide : strLen "" ≤ 64)]
  · rw [if_neg h0]
    by_cases heq : shortenCallID (getStr it "call_id") = getStr it "call_id"
    · rw [if_pos heq, heq]
    · rw [if_neg heq]
      have hobj : it.isObj = true := by
        cases hio : it.isObj
        · exact absurd (getStr_of_not_obj hio "call_id") h0
        · rfl
      exact getStr_setCallID_self hobj _

/-- C1: call-identifier shortening is deterministic within one conversion
call, yields results of length at most 64 starting with `call_`, and a
`function_call` and a `function_call_output` sharing one over-64-character
original identifier receive the identical shortened identifier, both in the
Chat-Completions converter's message loop and in the Responses normalizer. -/
theorem claim1_call_id_correlation (id : String) (h64 : 64 < strLen id) :
    (strLen (shortenCallID id) ≤ 64 ∧
     strStartsWith (shortenCallID id) "call_" = true) ∧
    (∀ c : CallCache, cacheOK c →
      (normCallID id c).1 = shortenCallID id ∧
      (normCallID id ((normCallID id c).2)).1 = (normCallID id c).1) ∧
    (∀ (nameMap : List (String × String)) (c : CallCache) (m mo tc : Json),
      cacheOK c →
      getStr m "role" = "tool" → getStr m "tool_call_id" = id →
      getStr mo "role" = "assistant" → tc ∈ toolCallsOf mo →
      getStr tc "type" = "function" → getStr tc "id" = id →
      (convertMessage nameMap c m).1 = [specFunctionOutputItem m] ∧
      (specFunctionOutputItem m).get "call_id" = some (Json.str (shortenCallID id)) ∧
      specFunctionCallItem nameMap tc ∈ (convertMessage nameMap c mo).1 ∧
      (specFunctionCallItem nameMap tc).get "call_id" =
        some (Json.str (shortenCallID id))) ∧
    (∀ (d : Doc) (items : List Json) (i j : Nat) (it1 it2 : Json),
      lookupKey "input" d = some (Json.arr items) →
      items[i]? = some it1 → items[j]? = some it2 →
      getStr it1 "call_id" = id → getStr it2 "call_id" = id →
      ∃ outItems out1 out2,
        lookupKey "input" (normalizeInputCallIDs d) = some (Json.arr outItems) ∧
        outItems[i]? = some out1 ∧ outItems[j]? = some out2 ∧
        getStr out1 "call_id" = shortenCallID id ∧
        getStr out2 "call_id" = getStr out1 "call_id") := by
  refine ⟨⟨strLen_shortenCallID id, shortenCallID_startsWith h64⟩, ?_, ?_, ?_⟩
  · intro c hc
    refine ⟨normCallID_fst hc, ?_⟩
    rw [normCallID_fst (normCallID_cacheOK hc), normCallID_fst hc]
  · intro nameMap c m mo tc hc hrole htcid hassist htc htype hid
    refine ⟨?_, ?_, ?_, ?_⟩
    · rw [(convertMessage_spec m hc).1]
      simp [specMessageItems, hrole]
    · simp [specFunctionOutputItem, htcid, Json.get, lookupKey]
    · have hmem : specFunctionCallItem nameMap tc ∈
          (toolCallsOf mo).filterMap (fun tc0 => if getStr tc0 "type" = "function"
            then some (specFunctionCallItem nameMap tc0) else none) :=
        List.mem_filterMap.mpr ⟨tc, htc, by rw [if_pos htype]⟩
      rw [(convertMessage_spec mo hc).1]
      simp [specMessageItems, hassist, hmem]
    · simp [specFunctionCallItem, hid, Json.get, lookupKey]
  · intro d items i j it1 it2 hinput hi hj hid1 hid2
    refine ⟨items.map pureNormItem, pureNormItem it1, pureNormItem it2,
            normalizeInputCallIDs_arr hinput, ?_, ?_, ?_, ?_⟩
    · rw [List.getElem?_map, hi]; rfl
    · rw [List.getElem?_map, hj]; rfl
    · rw [pureNormItem_callid, hid1]
    · rw [pureNormItem_callid, pureNormItem_callid, hid1, hid2]

/-- C1 witness: an 80-character identifier shared by a `function_call` and a
`function_call_output` in one Responses-normalizer request is rewritten to
one identical shortened identifier on both items. -/
theorem claim1_witness :
    (strLen (shortenCallID (String.mk (List.replicate 80 'a'))) ≤ 64 ∧
     strStartsWith (shortenCallID (String.mk (List.replicate 80 'a'))) "call_" = true) ∧
    (∃ outItems out1 out2,
      lookupKey "input" (normalizeInputCallIDs
        [("input", Json.arr
          [Json.obj [("type", Json.str "function_call"),
                     ("call_id", Json.str (String.mk (List.replicate 80 'a'))),
                     ("name", Json.str "foo"), ("arguments", Json.str "{}")],
           Json.obj [("type", Json.str "function_call_output"),
                     ("call_id", Json.str (String.mk (List.replicate 80 'a'))),
                     ("output", Json.str "ok")]])]) = some (Json.arr outItems) ∧
      outItems[0]? = some out1 ∧ outItems[1]? = some out2 ∧
      getStr out1 "call_id" = shortenCallID (String.mk (List.replicate 80 'a')) ∧
      getStr out2 "call_id" = getStr out1 "call_id") := by
  have h := claim1_call_id_correlation (String.mk (List.replicate 80 'a')) (by decide)
  refine ⟨h.1, ?_⟩
  exact h.2.2.2 _ _ 0 1 _ _ rfl rfl rfl (by decide) (by decide)

/-! The Responses-normalizer pipeline on an array-valued `input`. -/

theorem messageItem_get_role (role : String) (m : Json) :
    (messageItem role m).get "role" =
      some (Json.str (if role = "system" then "developer" else role)) := rfl

theorem getStr_roleFix (it : Json) :
    getStr (roleFix it) "role" =
      (if getStr it "role" = "system" then "developer" else getStr it "role") := by
  cases it with
  | obj fs =>
    by_cases h : getStr (Json.obj fs) "role" = "system"
    · rw [roleFix, if_pos h, if_pos h]
      simp [getStr, Json.get, lookupKey_setKey_self, goString]
    · rw [roleFix, if_neg h, if_neg h]
  | null => simp [roleFix, getStr, Json.get]
  | bool b => simp [roleFix, getStr, Json.get]
  | num n => simp [roleFix, getStr, Json.get]
  | str s => simp [roleFix, getStr, Json.get]
  | arr es => simp [roleFix, getStr, Json.get]

theorem roleFix_of_ne {it : Json} (h : getStr it "role" ≠ "system") : roleFix it = it := by
  cases it <;> rw [roleFix, if_neg h] <;> nofun

theorem getStr_pureNormItem_role (it : Json) :
    getStr (pureNormItem it) "role" = getStr it "role" := by
  rw [pureNormItem]
  by_cases h0 : getStr it "call_id" = ""
  · rw [if_pos h0]
  · rw [if_neg h0]
    by_cases heq : shortenCallID (getStr it "call_id") = getStr it "call_id"
    · rw [if_pos heq]
    · rw [if_neg heq]
      cases it with
      | obj fs =>
        simp [setCallID, getStr, Json.get,
              lookupKey_setKey_ne (by decide : "call_id" ≠ "role")]
      | null => rfl
      | bool b => rfl
      | num n => rfl
      | str s => rfl
      | arr es => rfl

theorem lookup_forceFlags_input (d : Doc) :
    lookupKey "input" (forceFlags d) = lookupKey "input" d := by
  rw [forceFlags]
  rw [lookupKey_setKey_ne (by decide : "include" ≠ "input")]
  rw [lookupKey_setKey_ne (by decide : "parallel_tool_calls" ≠ "input")]
  rw [lookupKey_setKey_ne (by decide : "store" ≠ "input")]
  rw [lookupKey_setKey_ne (by decide : "stream" ≠ "input")]

theorem lookup_stripFields_input (d : Doc) :
    lookupKey "input" (stripFields d) = lookupKey "input" d := by
  rw [stripFields]
  rw [lookupKey_delKey_ne (by decide : "user" ≠ "input")]
  rw [lookupKey_delKey_ne (by decide : "service_tier" ≠ "input")]
  rw [lookupKey_delKey_ne (by decide : "top_p" ≠ "input")]
  rw [lookupKey_delKey_ne (by decide : "temperature" ≠ "input")]
  rw [lookupKey_delKey_ne (by decide : "max_completion_tokens" ≠ "input")]
  rw [lookupKey_delKey_ne (by decide : "max_output_tokens" ≠ "input")]

theorem respPipeline_arr {d : Doc} {items : List Json} (model : String)
    (stream : Bool) (h : lookupKey "input" d = some (Json.arr items)) :
    lookupKey "input" (ConvertOpenAIResponsesRequestToCodex model d stream) =
      some (Json.arr (items.map (fun it => pureNormItem (roleFix it)))) := by
  rw [ConvertOpenAIResponsesRequestToCodex]
  have hwrap : wrapInputStr d = d := by rw [wrapInputStr, h]
  rw [hwrap]
  have h2 : lookupKey "input" (stripFields (forceFlags d)) = some (Json.arr items) := by
    rw [lookup_stripFields_input, lookup_forceFlags_input, h]
  have h3 : lookupKey "input"
      (convertSystemRoleToDeveloper (stripFields (forceFlags d))) =
      some (Json.arr (items.map roleFix)) := by
    rw [convertSystemRoleToDeveloper, h2, lookupKey_setKey_self]
  rw [normalizeInputCallIDs_arr h3, List.map_map]
  rfl

/-- C6: both converters rewrite exactly the `system` role to `developer`:
every emitted chat-converter message item carries role `developer` when the
source message's role was `system` and the unchanged role otherwise, and the
Responses normalizer rewrites `system` items to `developer` in place while
leaving every non-`system` item (including items without a role) untouched
by the role pass. -/
theorem claim6_system_to_developer :
    (∀ (nameMap : List (String × String)) (c : CallCache) (m : Json), cacheOK c →
      getStr m "role" ≠ "tool" →
      (∃ rest, (convertMessage nameMap c m).1 =
        messageItem (getStr m "role") m :: rest) ∧
      (messageItem (getStr m "role") m).get "role" =
        some (Json.str
          (if getStr m "role" = "system" then "developer" else getStr m "role"))) ∧
    (∀ (model : String) (stream : Bool) (d : Doc) (items : List Json),
      lookupKey "input" d = some (Json.arr items) →
      ∃ outItems : List Json,
        lookupKey "input" (ConvertOpenAIResponsesRequestToCodex model d stream) =
          some (Json.arr outItems) ∧
        outItems.length = items.length ∧
        ∀ (i : Nat) (it : Json), items[i]? = some it →
          outItems[i]? = some (pureNormItem (roleFix it)) ∧
          getStr (pureNormItem (roleFix it)) "role" =
            (if getStr it "role" = "system" then "developer" else getStr it "role") ∧
          (getStr it "role" ≠ "system" → roleFix it = it)) := by
  constructor
  · intro nameMap c m hc hrole
    refine ⟨⟨(if getStr m "role" = "assistant" then
        (toolCallsOf m).filterMap (fun tc => if getStr tc "type" = "function"
          then some (specFunctionCallItem nameMap tc) else none)
      else []), ?_⟩, messageItem_get_role _ m⟩
    rw [(convertMessage_spec m hc).1]
    simp [specMessageItems, hrole]
  · intro model stream d items h
    refine ⟨items.map (fun it => pureNormItem (roleFix it)),
            respPipeline_arr model stream h, by simp, ?_⟩
    intro i it hi
    refine ⟨by rw [List.getElem?_map, hi]; rfl, ?_, roleFix_of_ne⟩
    rw [getStr_pureNormItem_role, getStr_roleFix]

/-- C6 witness: a two-item input with a `system` and a `user` message is
rewritten to `developer` and `user` respectively by the Responses normalizer;
a chat-converter `system` message item carries role `developer`. -/
theorem claim6_witness :
    ((∃ rest, (convertMessage [] []
        (Json.obj [("role", Json.str "system"), ("content", Json.str "hi")])).1 =
      messageItem "system" (Json.obj [("role", Json.str "system"), ("content", Json.str "hi")]) :: rest) ∧
     (messageItem "system" (Json.obj [("role", Json.str "system"), ("content", Json.str "hi")])).get "role" =
       some (Json.str "developer")) ∧
    (∃ outItems : List Json,
      lookupKey "input" (ConvertOpenAIResponsesRequestToCodex "m"
        [("input", Json.arr
          [Json.obj [("type", Json.str "message"), ("role", Json.str "system"),
                     ("content", Json.str "You are a pirate.")],
           Json.obj [("type", Json.str "message"), ("role", Json.str "user"),
                     ("content", Json.str "Say hello.")]])] false) =
        some (Json.arr outItems) ∧
      outItems[0]? = some (Json.obj [("type", Json.str "message"),
        ("role", Json.str "developer"), ("content", Json.str "You are a pirate.")]) ∧
      outItems[1]? = some (Json.obj [("type", Json.str "message"),
        ("role", Json.str "user"), ("content", Json.str "Say hello.")])) := by
  constructor
  · have h := (claim6_system_to_developer.1 [] []
      (Json.obj [("role", Json.str "system"), ("content", Json.str "hi")])
      cacheOK_nil (by decide))
    exact ⟨h.1, h.2⟩
  · obtain ⟨outItems, hout, hlen, hat⟩ := claim6_system_to_developer.2 "m" false
      [("input", Json.arr
        [Json.obj [("type", Json.str "message"), ("role", Json.str "system"),
                   ("content", Json.str "You are a pirate.")],
         Json.obj [("type", Json.str "message"), ("role", Json.str "user"),
                   ("content", Json.str "Say hello.")]])] _ rfl
    refine ⟨outItems, hout, ?_, ?_⟩
    · rw [(hat 0 _ rfl).1]; rfl
    · rw [(hat 1 _ rfl).1]; rfl

/-! The structured-output mapping under `response_format.type = "json_schema"`. -/

theorem lookup_ccBase_text (model : String) (req : Doc) (stream : Bool) :
    lookupKey "text" (ccBase model req stream) = none := by
  simp only [ccBase]
  cases hre : lookupKey "reasoning_effort" req with
  | none =>
    rw [lookupKey_setKey_ne (by decide : "model" ≠ "text")]
    rw [lookupKey_setKey_ne (by decide : "include" ≠ "text")]
    rw [lookup_docSetPath_ne (by decide : "reasoning" ≠ "text")]
    rw [lookupKey_setKey_ne (by decide : "parallel_tool_calls" ≠ "text")]
    rw [lookup_docSetPath_ne (by decide : "reasoning" ≠ "text")]
    rw [lookupKey_setKey_ne (by decide : "stream" ≠ "text")]
    rfl
  | some v =>
    rw [lookupKey_setKey_ne (by decide : "model" ≠ "text")]
    rw [lookupKey_setKey_ne (by decide : "include" ≠ "text")]
    rw [lookup_docSetPath_ne (by decide : "reasoning" ≠ "text")]
    rw [lookupKey_setKey_ne (by decide : "parallel_tool_calls" ≠ "text")]
    rw [lookup_docSetPath_ne (by decide : "reasoning" ≠ "text")]
    rw [lookupKey_setKey_ne (by decide : "stream" ≠ "text")]
    rfl

theorem ccText_js_shape (req out : Doc) (rfv js : Json)
    (hout : lookupKey "text" out = none)
    (hrf : lookupKey "response_format" req = some rfv)
    (hty : getStr rfv "type" = "json_schema")
    (hjs : rfv.get "json_schema" = some js) :
    docGetPath (ccText req out) "text" ["format"] = some (Json.obj
      ((match js.get "schema" with
        | some v => setKey "schema" v
        | none => id)
       ((match js.get "strict" with
        | some v => setKey "strict" v
        | none => id)
       ((match js.get "name" with
        | some v => setKey "name" v
        | none => id) [("type", Json.str "json_schema")])))) := by
  simp only [ccText, hrf, hout, hty, hjs]
  cases hn : js.get "name" with
  | none =>
    cases hs : js.get "strict" with
    | none =>
      cases hsc : js.get "schema" with
      | none =>
        cases htv : lookupKey "text" req with
        | none =>
          simp [docSetPath, setPath, newNested, docGetPath, Json.get, getPath,
                setKey, lookupKey, lookupKey_setKey_self]
        | some tv =>
          cases hvb : tv.get "verbosity" with
          | none =>
            simp only [htv, hvb]
            simp [docSetPath, setPath, newNested, docGetPath, Json.get,
                  getPath, setKey, lookupKey, lookupKey_setKey_self]
          | some vv =>
            simp only [htv, hvb]
            simp [docSetPath, setPath, newNested, docGetPath, Json.get,
                  getPath, setKey, lookupKey, lookupKey_setKey_self]
      | some vsc =>
        cases htv : lookupKey "text" req with
        | none =>
          simp [docSetPath, setPath, newNested, docGetPath, Json.get, getPath,
                setKey, lookupKey, lookupKey_setKey_self]
        | some tv =>
          cases hvb : tv.get "verbosity" with
          | none =>
            simp only [htv, hvb]
            simp [docSetPath, setPath, newNested, docGetPath, Json.get,
                  getPath, setKey, lookupKey, lookupKey_setKey_self]
          | some vv =>
            simp only [htv, hvb]
            simp [docSetPath, setPath, newNested, docGetPath, Json.get,
                  getPath, setKey, lookupKey, lookupKey_setKey_self]
    | some vs =>
      cases hsc : js.get "schema" with
      | none =>
        cases htv : lookupKey "text" req with
        | none =>
          simp [docSetPath, setPath, newNested, docGetPath, Json.get, getPath,
                setKey, lookupKey, lookupKey_setKey_self]
        | some tv =>
          cases hvb : tv.get "verbosity" with
          | none =>
            simp only [htv, hvb]
            simp [docSetPath, setPath, newNested, docGetPath, Json.get,
                  getPath, setKey, lookupKey, lookupKey_setKey_self]
          | some vv =>
            simp only [htv, hvb]
            simp [docSetPath, setPath, newNested, docGetPath, Json.get,
                  getPath, setKey, lookupKey, lookupKey_setKey_self]
      | some vsc =>
        cases htv : lookupKey "text" req with
        | none =>
          simp [docSetPath, setPath, newNested, docGetPath, Json.get, getPath,
                setKey, lookupKey, lookupKey_setKey_self]
        | some tv =>
          cases hvb : tv.get "verbosity" with
          | none =>
            simp only [htv, hvb]
            simp [docSetPath, setPath, newNested, docGetPath, Json.get,
                  getPath, setKey, lookupKey, lookupKey_setKey_self]
          | some vv =>
            simp only [htv, hvb]
            simp [docSetPath, setPath, newNested, docGetPath, Json.get,
                  getPath, setKey, lookupKey, lookupKey_setKey_self]
  | some vn =>
    cases hs : js.get "strict" with
    | none =>
      cases hsc : js.get "schema" with
      | none =>
        cases htv : lookupKey "text" req with
        | none =>
          simp [docSetPath, setPath, newNested, docGetPath, Json.get, getPath,
                setKey, lookupKey, lookupKey_setKey_self]
        | some tv =>
          cases hvb : tv.get "verbosity" with
          | none =>
            simp only [htv, hvb]
            simp [docSetPath, setPath, newNested, docGetPath, Json.get,
                  getPath, setKey, lookupKey, lookupKey_setKey_self]
          | some vv =>
            simp only [htv, hvb]
            simp [docSetPath, setPath, newNested, docGetPath, Json.get,
                  getPath, setKey, lookupKey, lookupKey_setKey_self]
      | some vsc =>
        cases htv : lookupKey "text" req with
        | none =>
          simp [docSetPath, setPath, newNested, docGetPath, Json.get, getPath,
                setKey, lookupKey, lookupKey_setKey_self]
        | some tv =>
          cases hvb : tv.get "verbosity" with
          | none =>
            simp only [htv, hvb]
            simp [docSetPath, setPath, newNested, docGetPath, Json.get,
                  getPath, setKey, lookupKey, lookupKey_setKey_self]
          | some vv =>
            simp only [htv, hvb]
            simp [docSetPath, setPath, newNested, docGetPath, Json.get,
                  getPath, setKey, lookupKey, lookupKey_setKey_self]
    | some vs =>
      cases hsc : js.get "schema" with
      | none =>
        cases htv : lookupKey "text" req with
        | none =>
          simp [docSetPath, setPath, newNested, docGetPath, Json.get, getPath,
                setKey, lookupKey, lookupKey_setKey_self]
        | some tv =>
          cases hvb : tv.get "verbosity" with
          | none =>
            simp only [htv, hvb]
            simp [docSetPath, setPath, newNested, docGetPath, Json.get,
                  getPath, setKey, lookupKey, lookupKey_setKey_self]
          | some vv =>
            simp only [htv, hvb]
            simp [docSetPath, setPath, newNested, docGetPath, Json.get,
                  getPath, setKey, lookupKey, lookupKey_setKey_self]
      | some vsc =>
        cases htv : lookupKey "text" req with
        | none =>
          simp [docSetPath, setPath, newNested, docGetPath, Json.get, getPath,
                setKey, lookupKey, lookupKey_setKey_self]
        | some tv =>
          cases hvb : tv.get "verbosity" with
          | none =>
            simp only [htv, hvb]
            simp [docSetPath, setPath, newNested, docGetPath, Json.get,
                  getPath, setKey, lookupKey, lookupKey_setKey_self]
          | some vv =>
            simp only [htv, hvb]
            simp [docSetPath, setPath, newNested, docGetPath, Json.get,
                  getPath, setKey, lookupKey, lookupKey_setKey_self]

theorem docGetPath_congr {k : String} {o1 o2 : Doc}
    (h : lookupKey k o1 = lookupKey k o2) (r : List String) :
    docGetPath o1 k r = docGetPath o2 k r := by
  rw [docGetPath, docGetPath, h]

theorem docGetPath_two (o : Doc) (k1 k2 k3 : String) :
    docGetPath o k1 [k2, k3] =
      (docGetPath o k1 [k2]).bind (fun c => c.get k3) := by
  rw [docGetPath, docGetPath]
  cases lookupKey k1 o with
  | none => rfl
  | some c =>
    simp only [getPath]
    cases c.get k2 with
    | none => rfl
    | some c2 => cases h3 : c2.get k3 <;> simp [h3]

/-- C7 (amended): whenever `response_format.type = "json_schema"` and the
`json_schema` object is present, the output has `text.format.type =
"json_schema"`, `json_schema.name` and `json_schema.strict` are copied when
present and omitted when absent, and `json_schema.schema` is copied as the
identical raw subtree when present and omitted when absent. -/
theorem claim7_json_schema_mapping (model : String) (req : Doc) (stream : Bool)
    (rfv js : Json)
    (hrf : lookupKey "response_format" req = some rfv)
    (hty : getStr rfv "type" = "json_schema")
    (hjs : rfv.get "json_schema" = some js) :
    docGetPath (ConvertOpenAIRequestToCodex model req stream) "text" ["format", "type"] =
      some (Json.str "json_schema") ∧
    (∀ v, js.get "name" = some v →
      docGetPath (ConvertOpenAIRequestToCodex model req stream) "text" ["format", "name"] =
        some v) ∧
    (js.get "name" = none →
      docGetPath (ConvertOpenAIRequestToCodex model req stream) "text" ["format", "name"] =
        none) ∧
    (∀ v, js.get "strict" = some v →
      docGetPath (ConvertOpenAIRequestToCodex model req stream) "text" ["format", "strict"] =
        some v) ∧
    (js.get "strict" = none →
      docGetPath (ConvertOpenAIRequestToCodex model req stream) "text" ["format", "strict"] =
        none) ∧
    (∀ v, js.get "schema" = some v →
      docGetPath (ConvertOpenAIRequestToCodex model req stream) "text" ["format", "schema"] =
        some v) ∧
    (js.get "schema" = none →
      docGetPath (ConvertOpenAIRequestToCodex model req stream) "text" ["format", "schema"] =
        none) := by
  have hframe : lookupKey "text" (ConvertOpenAIRequestToCodex model req stream) =
      lookupKey "text" (ccText req (ccInput (reqNameMap req) req (ccBase model req stream))) := by
    rw [ConvertOpenAIRequestToCodex]
    rw [lookupKey_setKey_ne (by decide : "store" ≠ "text")]
    rw [lookup_ccToolChoice_ne _ _ _ (by decide : "text" ≠ "tool_choice")]
    rw [lookup_ccTools_ne _ _ _ (by decide : "text" ≠ "tools")]
  have hout0 : lookupKey "text" (ccInput (reqNameMap req) req (ccBase model req stream)) = none := by
    rw [ccInput, lookupKey_setKey_ne (by decide : "input" ≠ "text"), lookup_ccBase_text]
  have hshape := ccText_js_shape req _ rfv js hout0 hrf hty hjs
  refine ⟨?_, ?_, ?_, ?_, ?_, ?_, ?_⟩
  · rw [docGetPath_two, docGetPath_congr hframe, hshape, Option.some_bind, Json.get]
    cases hn : js.get "name" <;> cases hs : js.get "strict" <;> cases hsc : js.get "schema" <;>
      simp [setKey, lookupKey]
  · intro v hv
    rw [docGetPath_two, docGetPath_congr hframe, hshape, Option.some_bind, Json.get, hv]
    cases hs : js.get "strict" <;> cases hsc : js.get "schema" <;>
      simp [setKey, lookupKey]
  · intro hv
    rw [docGetPath_two, docGetPath_congr hframe, hshape, Option.some_bind, Json.get, hv]
    cases hs : js.get "strict" <;> cases hsc : js.get "schema" <;>
      simp [setKey, lookupKey]
  · intro v hv
    rw [docGetPath_two, docGetPath_congr hframe, hshape, Option.some_bind, Json.get, hv]
    cases hn : js.get "name" <;> cases hsc : js.get "schema" <;>
      simp [setKey, lookupKey]
  · intro hv
    rw [docGetPath_two, docGetPath_congr hframe, hshape, Option.some_bind, Json.get, hv]
    cases hn : js.get "name" <;> cases hsc : js.get "schema" <;>
      simp [setKey, lookupKey]
  · intro v hv
    rw [docGetPath_two, docGetPath_congr hframe, hshape, Option.some_bind, Json.get, hv]
    cases hn : js.get "name" <;> cases hs : js.get "strict" <;>
      simp [setKey, lookupKey]
  · intro hv
    rw [docGetPath_two, docGetPath_congr hframe, hshape, Option.some_bind, Json.get, hv]
    cases hn : js.get "name" <;> cases hs : js.get "strict" <;>
      simp [setKey, lookupKey]

/-- C7 counterexample to the claim as stated: with
`response_format = {"type":"json_schema"}` and no `json_schema` object, the
converter emits no `text.format.type` at all, although
`response_format.type` equals `"json_schema"`. -/
theorem claim7_counterexample :
    lookupKey "response_format"
      [("response_format", Json.obj [("type", Json.str "json_schema")])] =
      some (Json.obj [("type", Json.str "json_schema")]) ∧
    getStr (Json.obj [("type", Json.str "json_schema")]) "type" = "json_schema" ∧
    docGetPath (ConvertOpenAIRequestToCodex "m"
      [("response_format", Json.obj [("type", Json.str "json_schema")])] false)
      "text" ["format", "type"] = none :=
  ⟨rfl, rfl, rfl⟩

/-- C7 witness: a full `json_schema` response format with name, strict and a
schema subtree maps onto `text.format` with the schema subtree unchanged. -/
theorem claim7_witness :
    docGetPath (ConvertOpenAIRequestToCodex "m"
      [("response_format", Json.obj [("type", Json.str "json_schema"),
        ("json_schema", Json.obj [("name", Json.str "N"), ("strict", Json.bool true),
          ("schema", Json.obj [("type", Json.str "object")])])])] false)
      "text" ["format", "type"] = some (Json.str "json_schema") ∧
    docGetPath (ConvertOpenAIRequestToCodex "m"
      [("response_format", Json.obj [("type", Json.str "json_schema"),
        ("json_schema", Json.obj [("name", Json.str "N"), ("strict", Json.bool true),
          ("schema", Json.obj [("type", Json.str "object")])])])] false)
      "text" ["format", "schema"] = some (Json.obj [("type", Json.str "object")]) := by
  have h := claim7_json_schema_mapping "m"
    [("response_format", Json.obj [("type", Json.str "json_schema"),
      ("json_schema", Json.obj [("name", Json.str "N"), ("strict", Json.bool true),
        ("schema", Json.obj [("type", Json.str "object")])])])] false
    (Json.obj [("type", Json.str "json_schema"),
      ("json_schema", Json.obj [("name", Json.str "N"), ("strict", Json.bool true),
        ("schema", Json.obj [("type", Json.str "object")])])])
    (Json.obj [("name", Json.str "N"), ("strict", Json.bool true),
      ("schema", Json.obj [("type", Json.str "object")])])
    rfl rfl rfl
  exact ⟨h.1, h.2.2.2.2.2.1 _ rfl⟩

/-! C10: dropped entries of the tools array. -/

/-- C10: a tools entry whose `type` is absent or empty, or whose `type` is
neither empty nor `"function"` while the entry is not a JSON object, yields
no entry in the output `tools` array, which is exactly the `filterMap` of the
per-entry conversion over the input array. -/
theorem claim10_tools_dropped :
    (∀ (nameMap : List (String × String)) (t : Json),
      (getStr t "type" = "" ∨
       (getStr t "type" ≠ "" ∧ getStr t "type" ≠ "function" ∧ t.isObj = false)) →
      convertTool nameMap t = none) ∧
    (∀ (model : String) (req : Doc) (stream : Bool) (ts : List Json),
      lookupKey "tools" req = some (Json.arr ts) → ts ≠ [] →
      lookupKey "tools" (ConvertOpenAIRequestToCodex model req stream) =
        some (Json.arr (ts.filterMap (convertTool (reqNameMap req))))) := by
  constructor
  · intro nameMap t h
    simp only [convertTool]
    rcases h with h | ⟨h1, h2, h3⟩
    · rw [if_neg (by simp [h]), if_neg (by simp [h])]
    · rw [if_neg (by simp [h3]), if_neg h2]
  · intro model req stream ts hts hne
    rw [ConvertOpenAIRequestToCodex]
    rw [lookupKey_setKey_ne (by decide : "store" ≠ "tools")]
    rw [lookup_ccToolChoice_ne _ _ _ (by decide : "tools" ≠ "tool_choice")]
    rw [ccTools, hts]
    have hempty : ¬(ts.isEmpty = true) := by
      cases ts with
      | nil => exact absurd rfl hne
      | cons a l => simp
    simp only [if_neg hempty, lookupKey_setKey_self]

/-- C10 witness: an entry with empty `type` is dropped while a well-formed
function entry survives the mapping. -/
theorem claim10_witness :
    convertTool [] (Json.obj [("type", Json.str "")]) = none ∧
    lookupKey "tools" (ConvertOpenAIRequestToCodex "m"
      [("tools", Json.arr [Json.obj [("type", Json.str "")],
        Json.obj [("type", Json.str "function"),
                  ("function", Json.obj [("name", Json.str "f")])]])] false) =
      some (Json.arr
        ([Json.obj [("type", Json.str "")],
          Json.obj [("type", Json.str "function"),
                    ("function", Json.obj [("name", Json.str "f")])]].filterMap
          (convertTool (reqNameMap
            [("tools", Json.arr [Json.obj [("type", Json.str "")],
              Json.obj [("type", Json.str "function"),
                        ("function", Json.obj [("name", Json.str "f")])]])])))) := by
  constructor
  · exact claim10_tools_dropped.1 [] _ (Or.inl rfl)
  · exact claim10_tools_dropped.2 "m" _ false _ rfl (List.cons_ne_nil _ _)

/-! Frame lemmas for the Responses normalizer. -/

theorem lookup_wrapInputStr_ne (d : Doc) {k : String} (hk : k ≠ "input") :
    lookupKey k (wrapInputStr d) = lookupKey k d := by
  rw [wrapInputStr]
  cases h : lookupKey "input" d with
  | none => rfl
  | some v =>
    cases v with
    | str s => exact lookupKey_setKey_ne (Ne.symm hk) _ _
    | null => rfl
    | bool b => rfl
    | num n => rfl
    | arr es => rfl
    | obj fs => rfl

theorem lookup_convertRoles_ne (d : Doc) {k : String} (hk : k ≠ "input") :
    lookupKey k (convertSystemRoleToDeveloper d) = lookupKey k d := by
  rw [convertSystemRoleToDeveloper]
  cases h : lookupKey "input" d with
  | none => rfl
  | some v =>
    cases v with
    | arr es => exact lookupKey_setKey_ne (Ne.symm hk) _ _
    | null => rfl
    | bool b => rfl
    | num n => rfl
    | str s => rfl
    | obj fs => rfl

theorem lookup_nci_ne (d : Doc) {k : String} (hk : k ≠ "input") :
    lookupKey k (normalizeInputCallIDs d) = lookupKey k d := by
  rw [normalizeInputCallIDs]
  cases h : lookupKey "input" d with
  | none => rfl
  | some v =>
    cases v with
    | arr es => exact lookupKey_setKey_ne (Ne.symm hk) _ _
    | null => rfl
    | bool b => rfl
    | num n => rfl
    | str s => rfl
    | obj fs => rfl

theorem lookup_stripFields_ne (d : Doc) {k : String}
    (h1 : k ≠ "max_output_tokens") (h2 : k ≠ "max_completion_tokens")
    (h3 : k ≠ "temperature") (h4 : k ≠ "top_p") (h5 : k ≠ "service_tier")
    (h6 : k ≠ "user") : lookupKey k (stripFields d) = lookupKey k d := by
  rw [stripFields]
  rw [lookupKey_delKey_ne (Ne.symm h6), lookupKey_delKey_ne (Ne.symm h5),
      lookupKey_delKey_ne (Ne.symm h4), lookupKey_delKey_ne (Ne.symm h3),
      lookupKey_delKey_ne (Ne.symm h2), lookupKey_delKey_ne (Ne.symm h1)]

theorem lookup_forceFlags_ne (d : Doc) {k : String}
    (h1 : k ≠ "stream") (h2 : k ≠ "store") (h3 : k ≠ "parallel_tool_calls")
    (h4 : k ≠ "include") : lookupKey k (forceFlags d) = lookupKey k d := by
  rw [forceFlags]
  rw [lookupKey_setKey_ne (Ne.symm h4), lookupKey_setKey_ne (Ne.symm h3),
      lookupKey_setKey_ne (Ne.symm h2), lookupKey_setKey_ne (Ne.symm h1)]

theorem keysNodup_wrap {d : Doc} (h : keysNodup d) : keysNodup (wrapInputStr d) := by
  rw [wrapInputStr]
  cases hin : lookupKey "input" d with
  | none => exact h
  | some v =>
    cases v with
    | str s => exact nodup_keys_setKey _ _ _ h
    | null => exact h
    | bool b => exact h
    | num n => exact h
    | arr es => exact h
    | obj fs => exact h

theorem keysNodup_force {d : Doc} (h : keysNodup d) : keysNodup (forceFlags d) := by
  rw [forceFlags]
  exact nodup_keys_setKey _ _ _ (nodup_keys_setKey _ _ _
    (nodup_keys_setKey _ _ _ (nodup_keys_setKey _ _ _ h)))

theorem resp_forced (model : String) (stream : Bool) (d : Doc) :
    lookupKey "stream" (ConvertOpenAIResponsesRequestToCodex model d stream) =
      some (Json.bool true) ∧
    lookupKey "store" (ConvertOpenAIResponsesRequestToCodex model d stream) =
      some (Json.bool false) ∧
    lookupKey "parallel_tool_calls" (ConvertOpenAIResponsesRequestToCodex model d stream) =
      some (Json.bool true) ∧
    lookupKey "include" (ConvertOpenAIResponsesRequestToCodex model d stream) =
      some (Json.arr [Json.str "reasoning.encrypted_content"]) := by
  rw [ConvertOpenAIResponsesRequestToCodex]
  refine ⟨?_, ?_, ?_, ?_⟩ <;>
    [rw [lookup_nci_ne _ (by decide), lookup_convertRoles_ne _ (by decide),
       lookup_stripFields_ne _ (by decide) (by decide) (by decide) (by decide)
         (by decide) (by decide), forceFlags,
       lookupKey_setKey_ne (by decide : "include" ≠ "stream"),
       lookupKey_setKey_ne (by decide : "parallel_tool_calls" ≠ "stream"),
       lookupKey_setKey_ne (by decide : "store" ≠ "stream"),
       lookupKey_setKey_self];
     rw [lookup_nci_ne _ (by decide), lookup_convertRoles_ne _ (by decide),
       lookup_stripFields_ne _ (by decide) (by decide) (by decide) (by decide)
         (by decide) (by decide), forceFlags,
       lookupKey_setKey_ne (by decide : "include" ≠ "store"),
       lookupKey_setKey_ne (by decide : "parallel_tool_calls" ≠ "store"),
       lookupKey_setKey_self];
     rw [lookup_nci_ne _ (by decide), lookup_convertRoles_ne _ (by decide),
       lookup_stripFields_ne _ (by decide) (by decide) (by decide) (by decide)
         (by decide) (by decide), forceFlags,
       lookupKey_setKey_ne (by decide : "include" ≠ "parallel_tool_calls"),
       lookupKey_setKey_self];
     rw [lookup_nci_ne _ (by decide), lookup_convertRoles_ne _ (by decide),
       lookup_stripFields_ne _ (by decide) (by decide) (by decide) (by decide)
         (by decide) (by decide), forceFlags,
       lookupKey_setKey_self]]

theorem resp_deleted (model : String) (stream : Bool) (d : Doc) (hnd : keysNodup d) :
    lookupKey "max_output_tokens" (ConvertOpenAIResponsesRequestToCodex model d stream) = none ∧
    lookupKey "max_completion_tokens" (ConvertOpenAIResponsesRequestToCodex model d stream) = none ∧
    lookupKey "temperature" (ConvertOpenAIResponsesRequestToCodex model d stream) = none ∧
    lookupKey "top_p" (ConvertOpenAIResponsesRequestToCodex model d stream) = none ∧
    lookupKey "service_tier" (ConvertOpenAIResponsesRequestToCodex model d stream) = none ∧
    lookupKey "user" (ConvertOpenAIResponsesRequestToCodex model d stream) = none := by
  have hforce : keysNodup (forceFlags (wrapInputStr d)) := keysNodup_force (keysNodup_wrap hnd)
  rw [ConvertOpenAIResponsesRequestToCodex]
  refine ⟨?_, ?_, ?_, ?_, ?_, ?_⟩ <;>
    rw [lookup_nci_ne _ (by decide), lookup_convertRoles_ne _ (by decide), stripFields]
  · rw [lookupKey_delKey_ne (by decide : "user" ≠ "max_output_tokens"),
        lookupKey_delKey_ne (by decide : "service_tier" ≠ "max_output_tokens"),
        lookupKey_delKey_ne (by decide : "top_p" ≠ "max_output_tokens"),
        lookupKey_delKey_ne (by decide : "temperature" ≠ "max_output_tokens"),
        lookupKey_delKey_ne (by decide : "max_completion_tokens" ≠ "max_output_tokens")]
    exact lookupKey_delKey_self _ _ hforce
  · rw [lookupKey_delKey_ne (by decide : "user" ≠ "max_completion_tokens"),
        lookupKey_delKey_ne (by decide : "service_tier" ≠ "max_completion_tokens"),
        lookupKey_delKey_ne (by decide : "top_p" ≠ "max_completion_tokens"),
        lookupKey_delKey_ne (by decide : "temperature" ≠ "max_completion_tokens")]
    exact lookupKey_delKey_self _ _ (nodup_keys_delKey _ _ hforce)
  · rw [lookupKey_delKey_ne (by decide : "user" ≠ "temperature"),
        lookupKey_delKey_ne (by decide : "service_tier" ≠ "temperature"),
        lookupKey_delKey_ne (by decide : "top_p" ≠ "temperature")]
    exact lookupKey_delKey_self _ _ (nodup_keys_delKey _ _ (nodup_keys_delKey _ _ hforce))
  · rw [lookupKey_delKey_ne (by decide : "user" ≠ "top_p"),
        lookupKey_delKey_ne (by decide : "service_tier" ≠ "top_p")]
    exact lookupKey_delKey_self _ _
      (nodup_keys_delKey _ _ (nodup_keys_delKey _ _ (nodup_keys_delKey _ _ hforce)))
  · rw [lookupKey_delKey_ne (by decide : "user" ≠ "service_tier")]
    exact lookupKey_delKey_self _ _ (nodup_keys_delKey _ _
      (nodup_keys_delKey _ _ (nodup_keys_delKey _ _ (nodup_keys_delKey _ _ hforce))))
  · exact lookupKey_delKey_self _ _ (nodup_keys_delKey _ _ (nodup_keys_delKey _ _
      (nodup_keys_delKey _ _ (nodup_keys_delKey _ _ (nodup_keys_delKey _ _ hforce)))))

theorem resp_frame (model : String) (stream : Bool) (d : Doc) {k : String}
    (hk1 : k ≠ "input") (hk2 : k ≠ "stream") (hk3 : k ≠ "store")
    (hk4 : k ≠ "parallel_tool_calls") (hk5 : k ≠ "include")
    (hk6 : k ≠ "max_output_tokens") (hk7 : k ≠ "max_completion_tokens")
    (hk8 : k ≠ "temperature") (hk9 : k ≠ "top_p") (hk10 : k ≠ "service_tier")
    (hk11 : k ≠ "user") :
    lookupKey k (ConvertOpenAIResponsesRequestToCodex model d stream) = lookupKey k d := by
  rw [ConvertOpenAIResponsesRequestToCodex]
  rw [lookup_nci_ne _ hk1, lookup_convertRoles_ne _ hk1,
      lookup_stripFields_ne _ hk6 hk7 hk8 hk9 hk10 hk11,
      lookup_forceFlags_ne _ hk2 hk3 hk4 hk5, lookup_wrapInputStr_ne _ hk1]

/-- C9: the Responses normalizer forces the streaming and persistence flags,
deletes the backend-unsupported fields, and leaves every other top-level
field — in particular `tools` and `tool_choice` — unchanged; only `input` is
additionally subject to the in-array corrections. -/
theorem claim9_flags_and_frame (model : String) (stream : Bool) (d : Doc)
    (hnd : keysNodup d) :
    lookupKey "stream" (ConvertOpenAIResponsesRequestToCodex model d stream) =
      some (Json.bool true) ∧
    lookupKey "store" (ConvertOpenAIResponsesRequestToCodex model d stream) =
      some (Json.bool false) ∧
    lookupKey "parallel_tool_calls" (ConvertOpenAIResponsesRequestToCodex model d stream) =
      some (Json.bool true) ∧
    lookupKey "include" (ConvertOpenAIResponsesRequestToCodex model d stream) =
      some (Json.arr [Json.str "reasoning.encrypted_content"]) ∧
    lookupKey "max_output_tokens" (ConvertOpenAIResponsesRequestToCodex model d stream) = none ∧
    lookupKey "max_completion_tokens" (ConvertOpenAIResponsesRequestToCodex model d stream) = none ∧
    lookupKey "temperature" (ConvertOpenAIResponsesRequestToCodex model d stream) = none ∧
    lookupKey "top_p" (ConvertOpenAIResponsesRequestToCodex model d stream) = none ∧
    lookupKey "service_tier" (ConvertOpenAIResponsesRequestToCodex model d stream) = none ∧
    lookupKey "user" (ConvertOpenAIResponsesRequestToCodex model d stream) = none ∧
    (∀ k, k ∉ ["stream", "store", "parallel_tool_calls", "include",
        "max_output_tokens", "max_completion_tokens", "temperature", "top_p",
        "service_tier", "user", "input"] →
      lookupKey k (ConvertOpenAIResponsesRequestToCodex model d stream) = lookupKey k d) ∧
    lookupKey "tools" (ConvertOpenAIResponsesRequestToCodex model d stream) =
      lookupKey "tools" d ∧
    lookupKey "tool_choice" (ConvertOpenAIResponsesRequestToCodex model d stream) =
      lookupKey "tool_choice" d := by
  obtain ⟨hstream, hstore, hptc, hinc⟩ := resp_forced model stream d
  obtain ⟨hd1, hd2, hd3, hd4, hd5, hd6⟩ := resp_deleted model stream d hnd
  refine ⟨hstream, hstore, hptc, hinc, hd1, hd2, hd3, hd4, hd5, hd6, ?_, ?_, ?_⟩
  · intro k hk
    simp only [List.mem_cons, List.not_mem_nil, or_false, not_or] at hk
    obtain ⟨n1, n2, n3, n4, n5, n6, n7, n8, n9, n10, n11⟩ := hk
    exact resp_frame model stream d n11 n1 n2 n3 n4 n5 n6 n7 n8 n9 n10
  · exact resp_frame model stream d (by decide) (by decide) (by decide) (by decide)
      (by decide) (by decide) (by decide) (by decide) (by decide) (by decide) (by decide)
  · exact resp_frame model stream d (by decide) (by decide) (by decide) (by decide)
      (by decide) (by decide) (by decide) (by decide) (by decide) (by decide) (by decide)

/-- C9 witness: on a concrete document the flags are forced, `temperature`
is removed, and `tools` and `model` are carried through unchanged. -/
theorem claim9_witness :
    lookupKey "stream" (ConvertOpenAIResponsesRequestToCodex "g"
      [("model", Json.str "g"), ("temperature", Json.num 1),
       ("tools", Json.arr []), ("input", Json.str "hi")] false) =
      some (Json.bool true) ∧
    lookupKey "temperature" (ConvertOpenAIResponsesRequestToCodex "g"
      [("model", Json.str "g"), ("temperature", Json.num 1),
       ("tools", Json.arr []), ("input", Json.str "hi")] false) = none ∧
    lookupKey "tools" (ConvertOpenAIResponsesRequestToCodex "g"
      [("model", Json.str "g"), ("temperature", Json.num 1),
       ("tools", Json.arr []), ("input", Json.str "hi")] false) =
      some (Json.arr []) ∧
    lookupKey "model" (ConvertOpenAIResponsesRequestToCodex "g"
      [("model", Json.str "g"), ("temperature", Json.num 1),
       ("tools", Json.arr []), ("input", Json.str "hi")] false) =
      some (Json.str "g") := by
  obtain ⟨h1, _, _, _, _, _, h7, _, _, _, hframe, htools, _⟩ :=
    claim9_flags_and_frame "g" false
      [("model", Json.str "g"), ("temperature", Json.num 1),
       ("tools", Json.arr []), ("input", Json.str "hi")]
      (by unfold keysNodup; decide)
  exact ⟨h1, h7, htools.trans rfl, (hframe "model" (by decide)).trans rfl⟩

/-! Idempotence machinery for the Responses normalizer. -/

theorem pipeline_tail_arr {dw : Doc} {items : List Json}
    (h : lookupKey "input" dw = some (Json.arr items)) :
    lookupKey "input" (normalizeInputCallIDs (convertSystemRoleToDeveloper
      (stripFields (forceFlags dw)))) =
      some (Json.arr (items.map (fun it => pureNormItem (roleFix it)))) := by
  have h2 : lookupKey "input" (stripFields (forceFlags dw)) = some (Json.arr items) := by
    rw [lookup_stripFields_ne _ (by decide) (by decide) (by decide) (by decide)
          (by decide) (by decide),
        lookup_forceFlags_ne _ (by decide) (by decide) (by decide) (by decide), h]
  have h3 : lookupKey "input" (convertSystemRoleToDeveloper (stripFields (forceFlags dw))) =
      some (Json.arr (items.map roleFix)) := by
    rw [convertSystemRoleToDeveloper, h2, lookupKey_setKey_self]
  rw [normalizeInputCallIDs_arr h3, List.map_map]
  rfl

theorem resp_input_shape (model : String) (stream : Bool) (d : Doc) :
    lookupKey "input" (ConvertOpenAIResponsesRequestToCodex model d stream) = none ∨
    (∃ items : List Json,
      lookupKey "input" (ConvertOpenAIResponsesRequestToCodex model d stream) =
        some (Json.arr (items.map (fun it => pureNormItem (roleFix it))))) ∨
    (∃ v : Json,
      lookupKey "input" (ConvertOpenAIResponsesRequestToCodex model d stream) = some v ∧
      (∀ s, v ≠ Json.str s) ∧ (∀ es, v ≠ Json.arr es)) := by
  rw [ConvertOpenAIResponsesRequestToCodex]
  have hmid : ∀ (dw : Doc) (v : Json), lookupKey "input" dw = some v →
      (∀ es, v ≠ Json.arr es) → (∀ s, v ≠ Json.str s) →
      lookupKey "input" (normalizeInputCallIDs (convertSystemRoleToDeveloper
        (stripFields (forceFlags dw)))) = some v := by
    intro dw v hv ha hs
    have h2 : lookupKey "input" (stripFields (forceFlags dw)) = some v := by
      rw [lookup_stripFields_ne _ (by decide) (by decide) (by decide) (by decide)
            (by decide) (by decide),
          lookup_forceFlags_ne _ (by decide) (by decide) (by decide) (by decide), hv]
    have h3 : convertSystemRoleToDeveloper (stripFields (forceFlags dw)) =
        stripFields (forceFlags dw) := by
      rw [convertSystemRoleToDeveloper, h2]
      cases v with
      | arr es => exact absurd rfl (ha es)
      | null => rfl
      | bool b => rfl
      | num n => rfl
      | str s => rfl
      | obj fs => rfl
    have h4 : normalizeInputCallIDs (stripFields (forceFlags dw)) =
        stripFields (forceFlags dw) := by
      rw [normalizeInputCallIDs, h2]
      cases v with
      | arr es => exact absurd rfl (ha es)
      | null => rfl
      | bool b => rfl
      | num n => rfl
      | str s => rfl
      | obj fs => rfl
    rw [h3, h4, h2]
  cases hin : lookupKey "input" d with
  | none =>
    left
    have hw : wrapInputStr d = d := by rw [wrapInputStr, hin]
    rw [hw]
    have h2 : lookupKey "input" (stripFields (forceFlags d)) = none := by
      rw [lookup_stripFields_ne _ (by decide) (by decide) (by decide) (by decide)
            (by decide) (by decide),
          lookup_forceFlags_ne _ (by decide) (by decide) (by decide) (by decide), hin]
    have h3 : convertSystemRoleToDeveloper (stripFields (forceFlags d)) =
        stripFields (forceFlags d) := by
      rw [convertSystemRoleToDeveloper, h2]
    have h4 : normalizeInputCallIDs (stripFields (forceFlags d)) =
        stripFields (forceFlags d) := by
      rw [normalizeInputCallIDs, h2]
    rw [h3, h4, h2]
  | some v =>
    cases v with
    | str s =>
      right; left
      have hw : wrapInputStr d = setKey "input" (wrappedInput s) d := by
        rw [wrapInputStr, hin]
      rw [hw]
      refine ⟨[Json.obj [("type", Json.str "message"), ("role", Json.str "user"),
        ("content", Json.arr [Json.obj [("type", Json.str "input_text"),
          ("text", Json.str s)]])]], pipeline_tail_arr ?_⟩
      rw [lookupKey_setKey_self]
      rfl
    | arr items =>
      right; left
      have hw : wrapInputStr d = d := by rw [wrapInputStr, hin]
      rw [hw]
      exact ⟨items, pipeline_tail_arr hin⟩
    | null =>
      right; right
      have hw : wrapInputStr d = d := by rw [wrapInputStr, hin]
      rw [hw]
      exact ⟨Json.null, hmid d Json.null hin (by nofun) (by nofun), by nofun, by nofun⟩
    | bool b =>
      right; right
      have hw : wrapInputStr d = d := by rw [wrapInputStr, hin]
      rw [hw]
      exact ⟨Json.bool b, hmid d (Json.bool b) hin (by nofun) (by nofun), by nofun, by nofun⟩
    | num n =>
      right; right
      have hw : wrapInputStr d = d := by rw [wrapInputStr, hin]
      rw [hw]
      exact ⟨Json.num n, hmid d (Json.num n) hin (by nofun) (by nofun), by nofun, by nofun⟩
    | obj fs =>
      right; right
      have hw : wrapInputStr d = d := by rw [wrapInputStr, hin]
      rw [hw]
      exact ⟨Json.obj fs, hmid d (Json.obj fs) hin (by nofun) (by nofun), by nofun, by nofun⟩

theorem normed_item_role (it : Json) :
    getStr (pureNormItem (roleFix it)) "role" ≠ "system" := by
  rw [getStr_pureNormItem_role, getStr_roleFix]
  by_cases h : getStr it "role" = "system"
  · rw [if_pos h]; decide
  · rw [if_neg h]; exact h

theorem normed_item_cid (it : Json) :
    strLen (getStr (pureNormItem (roleFix it)) "call_id") ≤ 64 := by
  rw [pureNormItem_callid]
  exact strLen_shortenCallID _

theorem pureNormItem_of_short {y : Json} (h : strLen (getStr y "call_id") ≤ 64) :
    pureNormItem y = y := by
  rw [pureNormItem]
  by_cases h0 : getStr y "call_id" = ""
  · rw [if_pos h0]
  · rw [if_neg h0, if_pos (shortenCallID_short h)]

/-- C8: the Responses normalizer is idempotent: applying it to its own output
returns that output unchanged (for a well-formed top-level document, i.e. one
without duplicate keys). -/
theorem claim8_normalizer_idempotent (model : String) (stream : Bool) (d : Doc)
    (hnd : keysNodup d) :
    ConvertOpenAIResponsesRequestToCodex model
        (ConvertOpenAIResponsesRequestToCodex model d stream) stream =
      ConvertOpenAIResponsesRequestToCodex model d stream := by
  obtain ⟨hstream, hstore, hptc, hinc⟩ := resp_forced model stream d
  obtain ⟨hd1, hd2, hd3, hd4, hd5, hd6⟩ := resp_deleted model stream d hnd
  have hshape := resp_input_shape model stream d
  have hwrap : wrapInputStr (ConvertOpenAIResponsesRequestToCodex model d stream) =
      ConvertOpenAIResponsesRequestToCodex model d stream := by
    rw [wrapInputStr]
    rcases hshape with h | ⟨items, h⟩ | ⟨v, h, hs, ha⟩
    · rw [h]
    · rw [h]
    · rw [h]
      cases v with
      | str s => exact absurd rfl (hs s)
      | null => rfl
      | bool b => rfl
      | num n => rfl
      | arr es => rfl
      | obj fs => rfl
  have hforce : forceFlags (ConvertOpenAIResponsesRequestToCodex model d stream) =
      ConvertOpenAIResponsesRequestToCodex model d stream := by
    rw [forceFlags, setKey_eq_of_lookup hstream, setKey_eq_of_lookup hstore,
        setKey_eq_of_lookup hptc, setKey_eq_of_lookup hinc]
  have hstrip : stripFields (ConvertOpenAIResponsesRequestToCodex model d stream) =
      ConvertOpenAIResponsesRequestToCodex model d stream := by
    rw [stripFields, delKey_of_lookup_none hd1, delKey_of_lookup_none hd2,
        delKey_of_lookup_none hd3, delKey_of_lookup_none hd4,
        delKey_of_lookup_none hd5, delKey_of_lookup_none hd6]
  have hroles : convertSystemRoleToDeveloper
      (ConvertOpenAIResponsesRequestToCodex model d stream) =
      ConvertOpenAIResponsesRequestToCodex model d stream := by
    rw [convertSystemRoleToDeveloper]
    rcases hshape with h | ⟨items, h⟩ | ⟨v, h, hs, ha⟩
    · rw [h]
    · rw [h]
      have hfix : (items.map (fun it => pureNormItem (roleFix it))).map roleFix =
          items.map (fun it => pureNormItem (roleFix it)) := by
        rw [List.map_map]
        exact List.map_congr_left (fun x _ => roleFix_of_ne (normed_item_role x))
      simp only [hfix]
      exact setKey_eq_of_lookup h
    · rw [h]
      cases v with
      | arr es => exact absurd rfl (ha es)
      | null => rfl
      | bool b => rfl
      | num n => rfl
      | str s => rfl
      | obj fs => rfl
  have hnci : normalizeInputCallIDs (ConvertOpenAIResponsesRequestToCodex model d stream) =
      ConvertOpenAIResponsesRequestToCodex model d stream := by
    rw [normalizeInputCallIDs]
    rcases hshape with h | ⟨items, h⟩ | ⟨v, h, hs, ha⟩
    · rw [h]
    · rw [h]
      have hfold : ((items.map (fun it => pureNormItem (roleFix it))).foldl
          nciStep ([], [])).1 = items.map (fun it => pureNormItem (roleFix it)) := by
        rw [(nci_foldl_spec _ [] [] cacheOK_nil).1, List.nil_append, List.map_map]
        exact List.map_congr_left (fun x _ => pureNormItem_of_short (normed_item_cid x))
      simp only [hfold]
      exact setKey_eq_of_lookup h
    · rw [h]
      cases v with
      | arr es => exact absurd rfl (ha es)
      | null => rfl
      | bool b => rfl
      | num n => rfl
      | str s => rfl
      | obj fs => rfl
  have hfix : ∀ e : Doc,
      wrapInputStr e = e → forceFlags e = e → stripFields e = e →
      convertSystemRoleToDeveloper e = e → normalizeInputCallIDs e = e →
      ConvertOpenAIResponsesRequestToCodex model e stream = e := by
    intro e h1 h2 h3 h4 h5
    rw [ConvertOpenAIResponsesRequestToCodex, h1, h2, h3, h4, h5]
  exact hfix _ hwrap hforce hstrip hroles hnci

/-- C8 witness: idempotence at a concrete request carrying a bare string
input, a system message having been wrapped, and a sampling field. -/
theorem claim8_witness :
    ConvertOpenAIResponsesRequestToCodex "g"
        (ConvertOpenAIResponsesRequestToCodex "g"
          [("model", Json.str "g"), ("input", Json.str "Say hi"),
           ("temperature", Json.num 1), ("user", Json.str "u")] false) false =
      ConvertOpenAIResponsesRequestToCodex "g"
        [("model", Json.str "g"), ("input", Json.str "Say hi"),
         ("temperature", Json.num 1), ("user", Json.str "u")] false :=
  claim8_normalizer_idempotent "g" false _ (by unfold keysNodup; decide)

/-! Decimal rendering: fuel irrelevance, digit shape, and a left inverse. -/

theorem itoaAux_fuel : ∀ (f f2 n : Nat), n < f → n < f2 → itoaAux f n = itoaAux f2 n := by
  intro f
  induction f with
  | zero => intro f2 n h; omega
  | succ f ih =>
    intro f2 n h1 h2
    cases f2 with
    | zero => omega
    | succ g =>
      rw [itoaAux, itoaAux]
      by_cases hn : n < 10
      · simp [hn]
      · simp only [if_neg hn]
        have hdiv : n / 10 < n := Nat.div_lt_self (by omega) (by omega)
        rw [ih g (n / 10) (by omega) (by omega)]

theorem itoaAux_unfold (n : Nat) :
    itoaAux (n + 1) n =
      if n < 10 then [digitChar n]
      else itoaAux (n / 10 + 1) (n / 10) ++ [digitChar (n % 10)] := by
  rw [itoaAux]
  by_cases hn : n < 10
  · simp [hn]
  · simp only [if_neg hn]
    have hdiv : n / 10 < n := Nat.div_lt_self (by omega) (by omega)
    rw [itoaAux_fuel n (n / 10 + 1) (n / 10) (by omega) (by omega)]

theorem digitChar_isDigit {d : Nat} (h : d < 10) : (digitChar d).isDigit = true := by
  interval_cases d <;> decide

theorem digitVal_digitChar {d : Nat} (h : d < 10) : digitVal (digitChar d) = d := by
  interval_cases d <;> decide

theorem itoa_digits : ∀ n : Nat, ∀ c ∈ itoaAux (n + 1) n, c.isDigit = true := by
  intro n
  induction n using Nat.strong_induction_on with
  | _ n ih =>
    rw [itoaAux_unfold]
    by_cases hn : n < 10
    · simp only [if_pos hn]
      intro c hc
      rw [List.mem_singleton] at hc
      rw [hc]
      exact digitChar_isDigit hn
    · simp only [if_neg hn]
      intro c hc
      rcases List.mem_append.mp hc with hc | hc
      · exact ih (n / 10) (Nat.div_lt_self (by omega) (by omega)) c hc
      · rw [List.mem_singleton] at hc
        rw [hc]
        exact digitChar_isDigit (Nat.mod_lt _ (by omega))

theorem ofDigits_append_digit (l : List Char) (c : Char) :
    ofDigits (l ++ [c]) = ofDigits l * 10 + digitVal c := by
  rw [ofDigits, ofDigits, List.foldl_append]
  rfl

theorem ofDigits_itoa : ∀ n : Nat, ofDigits (itoaAux (n + 1) n) = n := by
  intro n
  induction n using Nat.strong_induction_on with
  | _ n ih =>
    rw [itoaAux_unfold]
    by_cases hn : n < 10
    · simp only [if_pos hn]
      show 0 * 10 + digitVal (digitChar n) = n
      rw [digitVal_digitChar hn]
      omega
    · simp only [if_neg hn]
      rw [ofDigits_append_digit,
          ih (n / 10) (Nat.div_lt_self (by omega) (by omega)),
          digitVal_digitChar (Nat.mod_lt _ (by omega))]
      omega

theorem itoaAux_len : ∀ n : Nat, ∀ k : Nat, 1 ≤ k → n < 10 ^ k →
    (itoaAux (n + 1) n).length ≤ k := by
  intro n
  induction n using Nat.strong_induction_on with
  | _ n ih =>
    intro k hk1 hnk
    rw [itoaAux_unfold]
    by_cases hn : n < 10
    · simp only [if_pos hn, List.length_singleton]
      omega
    · simp only [if_neg hn, List.length_append, List.length_singleton]
      have hdiv : n / 10 < n := Nat.div_lt_self (by omega) (by omega)
      have hk2 : 2 ≤ k := by
        by_contra hcon
        have hke : k = 1 := by omega
        rw [hke, pow_one] at hnk
        omega
      have hlt : n / 10 < 10 ^ (k - 1) := by
        rw [Nat.div_lt_iff_lt_mul (by omega : 0 < 10)]
        calc n < 10 ^ k := hnk
        _ = 10 ^ (k - 1) * 10 := by
          rw [← pow_succ]
          congr 1
          omega
      have := ih (n / 10) hdiv (k - 1) (by omega) hlt
      omega

/-! Candidate recovery: the numeric counter can be read back off any
`makeUnique` candidate, so candidates at distinct counters are distinct. -/

theorem takeWhile_all_append {p : Char → Bool} :
    ∀ (l1 : List Char) {y : Char} (l2 : List Char),
      (∀ x ∈ l1, p x = true) → p y = false →
      List.takeWhile p (l1 ++ y :: l2) = l1 := by
  intro l1
  induction l1 with
  | nil =>
    intro y l2 _ hy
    simp [List.takeWhile_cons, hy]
  | cons x xs ih =>
    intro y l2 hall hy
    have hx : p x = true := hall x (List.mem_cons_self _ _)
    rw [List.cons_append, List.takeWhile_cons, hx,
        ih l2 (fun a ha => hall a (List.mem_cons_of_mem _ ha)) hy]
    simp

theorem candAt_data (b : String) (i : Nat) :
    (candAt b i).data =
      (if 64 - strLen (strCat "_" (itoa i)) < strLen b
        then strTake b (64 - strLen (strCat "_" (itoa i))) else b).data ++
      '_' :: itoaAux (i + 1) i := by
  rw [candAt, strCat_data]
  congr 1

theorem recNum_candAt (b : String) (i : Nat) : recNum (candAt b i) = i := by
  rw [recNum, candAt_data]
  rw [List.reverse_append, List.reverse_cons]
  have harr : (itoaAux (i + 1) i).reverse ++ ['_'] ++
      (if 64 - strLen (strCat "_" (itoa i)) < strLen b
        then strTake b (64 - strLen (strCat "_" (itoa i))) else b).data.reverse =
      (itoaAux (i + 1) i).reverse ++ '_' ::
      (if 64 - strLen (strCat "_" (itoa i)) < strLen b
        then strTake b (64 - strLen (strCat "_" (itoa i))) else b).data.reverse := by
    rw [List.append_assoc]
    rfl
  rw [harr, takeWhile_all_append _ _
        (fun x hx => itoa_digits i x (List.mem_reverse.mp hx)) (by decide),
      List.reverse_reverse]
  exact ofDigits_itoa i

theorem candAt_inj {b : String} {i j : Nat} (h : candAt b i = candAt b j) : i = j := by
  have := congrArg recNum h
  rwa [recNum_candAt, recNum_candAt] at this

/-! The collision-resolution search. -/

theorem searchFree_not_mem {used : List String} {b : String} :
    ∀ (fuel i : Nat), (∃ k, k < fuel ∧ candAt b (i + k) ∉ used) →
      searchFree used b fuel i ∉ used := by
  intro fuel
  induction fuel with
  | zero =>
    intro i h
    obtain ⟨k, hk, _⟩ := h
    omega
  | succ fuel ih =>
    intro i h
    rw [searchFree]
    by_cases hmem : candAt b i ∈ used
    · simp only [if_pos hmem]
      obtain ⟨k, hk, hfree⟩ := h
      have hk0 : k ≠ 0 := by
        intro h0
        rw [h0, Nat.add_zero] at hfree
        exact hfree hmem
      refine ih (i + 1) ⟨k - 1, by omega, ?_⟩
      have : i + 1 + (k - 1) = i + k := by omega
      rw [this]
      exact hfree
    · simp only [if_neg hmem]
      exact hmem

theorem searchFree_index {used : List String} {b : String} :
    ∀ (fuel i : Nat), ∃ k, k ≤ fuel ∧ searchFree used b fuel i = candAt b (i + k) := by
  intro fuel
  induction fuel with
  | zero => intro i; exact ⟨0, le_refl _, by rw [searchFree, Nat.add_zero]⟩
  | succ fuel ih =>
    intro i
    rw [searchFree]
    by_cases hmem : candAt b i ∈ used
    · simp only [if_pos hmem]
      obtain ⟨k, hk, heq⟩ := ih (i + 1)
      refine ⟨k + 1, by omega, ?_⟩
      rw [heq]
      congr 1
      omega
    · simp only [if_neg hmem]
      exact ⟨0, by omega, by rw [Nat.add_zero]⟩

/-- Pigeonhole: among the first `used.length + 1` candidates one is unused. -/
theorem exists_free_cand (used : List String) (b : String) :
    ∃ k, k < used.length + 1 ∧ candAt b (1 + k) ∉ used := by
  by_contra hcon
  push_neg at hcon
  have hall : ∀ k < used.length + 1, candAt b (1 + k) ∈ used := hcon
  have hnodup : ((List.range (used.length + 1)).map (fun k => candAt b (1 + k))).Nodup := by
    refine List.Nodup.map_on ?_ (List.nodup_range _)
    intro x _ y _ hxy
    have := candAt_inj hxy
    omega
  have hsub : ∀ x ∈ (List.range (used.length + 1)).map (fun k => candAt b (1 + k)),
      x ∈ used := by
    intro x hx
    rcases List.mem_map.mp hx with ⟨k, hk, rfl⟩
    exact hall k (List.mem_range.mp hk)
  have hcard1 : ((List.range (used.length + 1)).map (fun k => candAt b (1 + k))).toFinset.card =
      used.length + 1 := by
    rw [List.toFinset_card_of_nodup hnodup]
    simp
  have hcard2 : ((List.range (used.length + 1)).map (fun k => candAt b (1 + k))).toFinset.card ≤
      used.toFinset.card := by
    apply Finset.card_le_card
    intro x hx
    rw [List.mem_toFinset] at *
    exact hsub x hx
  have hcard3 : used.toFinset.card ≤ used.length := List.toFinset_card_le _
  omega

theorem makeUnique_not_mem (used : List String) (cand : String) :
    makeUnique used cand ∉ used := by
  rw [makeUnique]
  by_cases h : cand ∈ used
  · simp only [if_pos h]
    obtain ⟨k, hk, hfree⟩ := exists_free_cand used cand
    exact searchFree_not_mem _ _ ⟨k, hk, hfree⟩
  · simp only [if_neg h]
    exact h

theorem strLen_candAt {b : String} {i : Nat} (hi : strLen (itoa i) ≤ 63) :
    strLen (candAt b i) ≤ 64 := by
  rw [candAt]
  have hsfx : strLen (strCat "_" (itoa i)) = 1 + strLen (itoa i) := by
    rw [strLen_strCat, show strLen "_" = 1 from by decide]
  rw [strLen_strCat]
  by_cases hcut : 64 - strLen (strCat "_" (itoa i)) < strLen b
  · rw [if_pos hcut, strLen_strTake]
    omega
  · rw [if_neg hcut]
    omega

theorem strLen_makeUnique {used : List String} {cand : String}
    (hc : strLen cand ≤ 64) (hbound : used.length + 2 < 10 ^ 63) :
    strLen (makeUnique used cand) ≤ 64 := by
  rw [makeUnique]
  by_cases h : cand ∈ used
  · simp only [if_pos h]
    obtain ⟨k, hk, heq⟩ := @searchFree_index used cand (used.length + 1) 1
    rw [heq]
    refine strLen_candAt ?_
    show (itoaAux (1 + k + 1) (1 + k)).length ≤ 63
    exact itoaAux_len (1 + k) 63 (by omega) (by omega)
  · simp only [if_neg h]
    exact hc

/-! The name-map fold: distinct aliases, bounded lengths, one alias per name. -/

theorem setKey_append_of_none {β : Type} {k : String} {v : β} :
    ∀ {l : List (String × β)}, lookupKey k l = none →
      setKey k v l = l ++ [(k, v)] := by
  intro l
  induction l with
  | nil => intro _; rfl
  | cons q t ih =>
    intro h
    obtain ⟨k0, v0⟩ := q
    by_cases hq : k0 = k
    · simp [lookupKey, hq] at h
    · simp [lookupKey, hq] at h
      simp [setKey, hq, ih h]

theorem lookup_some_of_mem_keys {β : Type} {k : String} :
    ∀ {l : List (String × β)}, k ∈ l.map Prod.fst → ∃ v, lookupKey k l = some v := by
  intro l
  induction l with
  | nil => intro h; simp at h
  | cons q t ih =>
    intro h
    obtain ⟨k0, v0⟩ := q
    by_cases hq : k0 = k
    · exact ⟨v0, by simp [lookupKey, hq]⟩
    · rw [List.map_cons, List.mem_cons] at h
      rcases h with h | h
      · exact absurd h.symm hq
      · obtain ⟨v, hv⟩ := ih h
        exact ⟨v, by simp [lookupKey, hq, hv]⟩

theorem val_mem_of_lookup {β : Type} {k : String} {v : β} {l : List (String × β)}
    (h : lookupKey k l = some v) : v ∈ l.map Prod.snd :=
  List.mem_map.mpr ⟨(k, v), lookupKey_mem h, rfl⟩

theorem lookup_distinct {m : List (String × String)}
    (hvals : (m.map Prod.snd).Nodup) {n1 n2 : String}
    (h1 : n1 ∈ m.map Prod.fst) (h2 : n2 ∈ m.map Prod.fst) (hne : n1 ≠ n2) :
    ∃ a1 a2, lookupKey n1 m = some a1 ∧ lookupKey n2 m = some a2 ∧ a1 ≠ a2 := by
  induction m with
  | nil => simp at h1
  | cons q t ih =>
    obtain ⟨k, v⟩ := q
    rw [List.map_cons, List.nodup_cons] at hvals
    rw [List.map_cons, List.mem_cons] at h1 h2
    by_cases hk1 : k = n1
    · have h2t : n2 ∈ t.map Prod.fst := by
        rcases h2 with h2 | h2
        · exact absurd (h2.trans hk1).symm hne
        · exact h2
      obtain ⟨a2, ha2⟩ := lookup_some_of_mem_keys h2t
      refine ⟨v, a2, by simp [lookupKey, hk1], ?_, ?_⟩
      · have hk2 : ¬k = n2 := fun hh => hne ((hk1.symm.trans hh))
        simp [lookupKey, hk2, ha2]
      · intro hva
        exact hvals.1 (hva ▸ val_mem_of_lookup ha2)
    · by_cases hk2 : k = n2
      · have h1t : n1 ∈ t.map Prod.fst := by
          rcases h1 with h1 | h1
          · exact absurd h1.symm hk1
          · exact h1
        obtain ⟨a1, ha1⟩ := lookup_some_of_mem_keys h1t
        refine ⟨a1, v, by simp [lookupKey, hk1, ha1], by simp [lookupKey, hk2], ?_⟩
        intro hva
        exact hvals.1 (hva ▸ val_mem_of_lookup ha1)
      · have h1t : n1 ∈ t.map Prod.fst := by
          rcases h1 with h1 | h1
          · exact absurd h1.symm hk1
          · exact h1
        have h2t : n2 ∈ t.map Prod.fst := by
          rcases h2 with h2 | h2
          · exact absurd h2.symm hk2
          · exact h2
        obtain ⟨a1, a2, ha1, ha2, hne12⟩ := ih hvals.2 h1t h2t
        exact ⟨a1, a2, by simp [lookupKey, hk1, ha1], by simp [lookupKey, hk2, ha2], hne12⟩

theorem baseCandidate_eq_shorten : baseCandidate = shortenNameIfNeeded := rfl

theorem strLen_baseCandidate (n : String) : strLen (baseCandidate n) ≤ 64 := by
  rw [baseCandidate_eq_shorten]
  exact shortenNameIfNeeded_len n

theorem bsn_fold_inv :
    ∀ (names : List String) (used : List String) (m : List (String × String)),
      names.Nodup →
      (∀ n ∈ names, n ∉ m.map Prod.fst) →
      (m.map Prod.snd).Nodup →
      (∀ v ∈ m.map Prod.snd, v ∈ used) →
      (∀ p ∈ m, strLen p.2 ≤ 64) →
      used.length + names.length + 2 < 10 ^ 63 →
      ((names.foldl bsnStep (used, m)).2.map Prod.fst = m.map Prod.fst ++ names) ∧
      ((names.foldl bsnStep (used, m)).2.map Prod.snd).Nodup ∧
      (∀ p ∈ (names.foldl bsnStep (used, m)).2, strLen p.2 ≤ 64) := by
  intro names
  induction names with
  | nil =>
    intro used m _ _ hvals _ hlens _
    exact ⟨by simp, hvals, hlens⟩
  | cons n rest ih =>
    intro used m hnd hfresh hvals hvu hlens hbound
    rw [List.foldl_cons]
    have hn_not : lookupKey n m = none :=
      lookupKey_eq_none_of_not_keys (hfresh n (List.mem_cons_self _ _))
    have hstep : bsnStep (used, m) n =
        (used ++ [makeUnique used (baseCandidate n)],
         m ++ [(n, makeUnique used (baseCandidate n))]) := by
      simp only [bsnStep]
      rw [setKey_append_of_none hn_not]
    rw [hstep]
    have hnodup_rest := (List.nodup_cons.mp hnd).2
    have hn_rest := (List.nodup_cons.mp hnd).1
    have hnew_not_used := makeUnique_not_mem used (baseCandidate n)
    have hnew_len : strLen (makeUnique used (baseCandidate n)) ≤ 64 :=
      strLen_makeUnique (strLen_baseCandidate n) (by omega)
    obtain ⟨i1, i2, i3⟩ := ih (used ++ [makeUnique used (baseCandidate n)])
      (m ++ [(n, makeUnique used (baseCandidate n))]) hnodup_rest
      (by
        intro n2 hn2
        rw [List.map_append, List.mem_append]
        rintro (hmem | hmem)
        · exact hfresh n2 (List.mem_cons_of_mem _ hn2) hmem
        · simp at hmem
          exact hn_rest (hmem ▸ hn2))
      (by
        rw [List.map_append]
        refine List.Nodup.append hvals (by simp) ?_
        intro a ha hb
        simp at hb
        exact hnew_not_used (hb ▸ hvu a ha))
      (by
        intro v hv
        rw [List.map_append, List.mem_append] at hv
        rcases hv with hv | hv
        · exact List.mem_append_left _ (hvu v hv)
        · simp at hv
          rw [hv]
          simp)
      (by
        intro p hp
        rcases List.mem_append.mp hp with hp | hp
        · exact hlens p hp
        · simp at hp
          rw [hp]
          exact hnew_len)
      (by
        rw [List.length_append]
        simp only [List.length_singleton, List.length_cons, List.length_nil] at *
        omega)
    refine ⟨?_, i2, i3⟩
    rw [i1, List.map_append]
    simp

/-- C2: over a list of pairwise-distinct tool names (of any physically
realizable count), the pre-pass name map carries exactly one alias per name
in input order, every alias has length at most 64, and distinct names map to
distinct aliases. -/
theorem claim2_unique_aliases (names : List String) (hnd : names.Nodup)
    (hcount : names.length + 2 < 10 ^ 63) :
    ((buildShortNameMap names).map Prod.fst = names) ∧
    (∀ n ∈ names, ∃ a, lookupKey n (buildShortNameMap names) = some a ∧ strLen a ≤ 64) ∧
    (∀ n1 ∈ names, ∀ n2 ∈ names, n1 ≠ n2 →
      ∃ a1 a2, lookupKey n1 (buildShortNameMap names) = some a1 ∧
        lookupKey n2 (buildShortNameMap names) = some a2 ∧ a1 ≠ a2) := by
  obtain ⟨hkeys, hvals, hlens⟩ := bsn_fold_inv names [] [] hnd (by simp) (by simp)
    (by simp) (by simp) (by simpa using hcount)
  rw [buildShortNameMap]
  have hkeys2 : (names.foldl bsnStep ([], [])).2.map Prod.fst = names := by
    rw [hkeys]; rfl
  refine ⟨hkeys2, ?_, ?_⟩
  · intro n hn
    obtain ⟨a, ha⟩ := @lookup_some_of_mem_keys String n ((names.foldl bsnStep ([], [])).2)
      (by rw [hkeys2]; exact hn)
    exact ⟨a, ha, hlens _ (lookupKey_mem ha)⟩
  · intro n1 h1 n2 h2 hne
    exact lookup_distinct hvals (by rw [hkeys2]; exact h1) (by rw [hkeys2]; exact h2) hne

/-- C2 witness: two distinct 70-character names whose truncations collide
still receive distinct aliases (the second gets a numeric suffix). -/
theorem claim2_witness :
    ∃ a1 a2,
      lookupKey (String.mk (List.replicate 70 'x'))
        (buildShortNameMap [String.mk (List.replicate 70 'x'),
          strCat (String.mk (List.replicate 69 'x')) "y"]) = some a1 ∧
      lookupKey (strCat (String.mk (List.replicate 69 'x')) "y")
        (buildShortNameMap [String.mk (List.replicate 70 'x'),
          strCat (String.mk (List.replicate 69 'x')) "y"]) = some a2 ∧
      a1 ≠ a2 :=
  (claim2_unique_aliases
      [String.mk (List.replicate 70 'x'), strCat (String.mk (List.replicate 69 'x')) "y"]
      (by decide) (by decide)).2.2
    (String.mk (List.replicate 70 'x')) (by decide)
    (strCat (String.mk (List.replicate 69 'x')) "y") (by decide)
    (by decide)
